import Mathlib

/-!
# canopy-cli: the scan submission pipeline

A shallow embedding of the parts of `hha-nguyen/canopy-cli` that decide the
behaviour of a scan: the severity threshold policy (`internal/exit/codes.go`),
the ignore-pattern matcher and the archive builder
(`internal/archive/compress.go`), the archive validator
(`internal/archive/validate.go`), the error handling of the client
(`internal/api`), and `runScan` with its poll loop and `outputResults`
(`cmd/scan.go`).

Conventions of the embedding.

* A Go `string` is a Lean `String`; the functions of package `strings` are
  defined on the character list `String.data`.  Go compares the bytes of the
  UTF-8 encoding; for well-formed text a byte-wise prefix, suffix or substring
  is a character-wise one and conversely, since an encoded character never
  begins inside another one.
* A Go `int` is a Lean `Int` (no arithmetic is performed on the counts, they
  are only compared with zero).
* The file system is a tree value (`Node`); every system call whose failure
  changes control flow has its outcome recorded in the tree.
* The remote service and the clock are a script of events consumed by the
  poll loop.
* The case table of package `unicode` and the decoders of `encoding/json`
  are parameters of the functions that use them.
* An archive file is what the system calls and the zip, gzip and tar readers
  find in it (`ArchiveFile`); the calls made on it are recorded in order.
-/

namespace CanopyCli

/-! ## Package `strings` -/

/-- Go `strings.HasPrefix(s, prefix)`. -/
def HasPrefix (s pre : String) : Bool := pre.data.isPrefixOf s.data

/-- Go `strings.HasSuffix(s, suffix)`. -/
def HasSuffix (s suf : String) : Bool := suf.data.isSuffixOf s.data

/-- Go `strings.Contains(s, substr)`. -/
def Contains (s sub : String) : Bool := decide (sub.data <:+: s.data)

/-- Go `strings.TrimPrefix(s, prefix)`: `s` without the leading `prefix`,
or `s` itself when it does not start with it. -/
def TrimPrefix (s pre : String) : String :=
  if HasPrefix s pre then ⟨s.data.drop pre.data.length⟩ else s

/-! ## `internal/exit/codes.go` -/

def Success : Int := 0
def IssuesFound : Int := 1
def ScanFailed : Int := 2
def AuthenticationErr : Int := 3
def NetworkErr : Int := 4
def InvalidArgs : Int := 5
def Timeout : Int := 6

/-- Go `type Threshold string`: every string is a value of the type. -/
abbrev Threshold := String

def ThresholdBlocker : Threshold := "blocker"
def ThresholdHigh : Threshold := "high"
def ThresholdMedium : Threshold := "medium"
def ThresholdLow : Threshold := "low"

/-- Go `exit.ScanSummary`. -/
structure ScanSummary where
  Blocker : Int
  High : Int
  Medium : Int
  Low : Int
  deriving DecidableEq, Repr

/-- Go `exit.DetermineExitCode`: a `switch` on the threshold; a case whose
`if` does not fire, and a threshold matching no case, leave the `switch` and
reach the final `return Success`. -/
def DetermineExitCode (summary : ScanSummary) (threshold : Threshold) : Int :=
  if threshold = ThresholdBlocker then
    if summary.Blocker > 0 then IssuesFound else Success
  else if threshold = ThresholdHigh then
    if summary.Blocker > 0 ∨ summary.High > 0 then IssuesFound else Success
  else if threshold = ThresholdMedium then
    if summary.Blocker > 0 ∨ summary.High > 0 ∨ summary.Medium > 0 then IssuesFound
    else Success
  else if threshold = ThresholdLow then
    if summary.Blocker > 0 ∨ summary.High > 0 ∨ summary.Medium > 0 ∨ summary.Low > 0 then
      IssuesFound
    else Success
  else Success

/-! ## `internal/archive/compress.go`: the ignore-pattern matcher -/

/-- Go `archive.shouldIgnore(path, info, patterns)`, with `name` standing for
`info.Name()`.  The `for ... range patterns` loop is the recursion on the
list: an iteration that returns `true` ends the loop, any other iteration
goes on with the remaining patterns, and the exhausted loop returns `false`. -/
def shouldIgnore (path name : String) : List String → Bool
  | [] => false
  | pattern :: rest =>
    if HasPrefix pattern "*" then
      let ext := TrimPrefix pattern "*"
      if HasSuffix name ext then true
      else shouldIgnore path name rest
    else if name = pattern then true
    else if Contains path pattern then true
    else shouldIgnore path name rest

/-! ## Package `path/filepath` (Unix) -/

/-- The path separator. -/
def Separator : Char := '/'

/-- Splits a character list at every separator; the pieces between two
adjacent separators, before a leading one and after a trailing one are
empty. -/
def splitElems : List Char → List (List Char)
  | [] => [[]]
  | c :: cs =>
    if c = Separator then [] :: splitElems cs
    else
      match splitElems cs with
      | [] => [[c]]
      | e :: es => (c :: e) :: es

/-- The element loop of Go `filepath.Clean`, run on the elements of the path
with the output kept as a stack of elements (last written element first):
empty elements and `.` are dropped, `..` removes the last written real
element when there is one, is kept when the path is not rooted, and is
dropped at the root. -/
def cleanElems (rooted : Bool) : List (List Char) → List (List Char) → List (List Char)
  | [], out => out
  | e :: es, out =>
    if e = [] ∨ e = ['.'] then cleanElems rooted es out
    else if e = ['.', '.'] then
      match out with
      | top :: below =>
        if top = ['.', '.'] then cleanElems rooted es (e :: out)
        else cleanElems rooted es below
      | [] => if rooted then cleanElems rooted es [] else cleanElems rooted es [e]
    else cleanElems rooted es (e :: out)

/-- Go `filepath.Clean`: the shortest path naming the same file by purely
lexical processing; the empty result is written `.`. -/
def Clean (path : String) : String :=
  if path.data = [] then "."
  else
    let rooted : Bool := path.data.head? = some Separator
    let out := (cleanElems rooted (splitElems path.data) []).reverse
    let body := [Separator].intercalate out
    if rooted then ⟨Separator :: body⟩
    else if body = [] then "." else ⟨body⟩

/-- Go `filepath.Join` of two elements: empty elements are ignored, the rest
is joined with the separator and cleaned; the result is empty only when both
elements are. -/
def Join (a b : String) : String :=
  if a ≠ "" then Clean ⟨a.data ++ Separator :: b.data⟩
  else if b ≠ "" then Clean b
  else ""

/-- The part of a path up to and including its last separator (empty when
there is none). -/
def uptoLastSep (l : List Char) : List Char :=
  (l.reverse.dropWhile (fun c => c ≠ Separator)).reverse

/-- Go `filepath.Dir`: all but the last element of the path, cleaned. -/
def Dir (path : String) : String := Clean ⟨uptoLastSep path.data⟩

/-- Go `filepath.IsAbs` (Unix): the path begins with the separator. -/
def IsAbs (path : String) : Bool := HasPrefix path "/"

/-- The scanning loop of Go `filepath.Rel`: `b` and `t` are what is left of
the cleaned base and target from the positions `b0` and `t0`; the loop stops
when one of them is used up or at the first pair of elements that differ.
The third component is `base[b0:bi]` at the exit. -/
def relLoop : Nat → List Char → List Char → List Char × List Char × List Char
  | 0, b, t => (b, t, [])
  | fuel + 1, b, t =>
    if b = [] ∨ t = [] then (b, t, [])
    else
      let eb := b.takeWhile (fun c => c ≠ Separator)
      let et := t.takeWhile (fun c => c ≠ Separator)
      if et ≠ eb then (b, t, eb)
      else relLoop fuel ((b.drop eb.length).drop 1) ((t.drop et.length).drop 1)

/-- Go `filepath.Rel(basepath, targpath)`; `none` is the error return. -/
def Rel (basepath targpath : String) : Option String :=
  let base := Clean basepath
  let targ := Clean targpath
  if targ = base then some "."
  else
    let b : List Char := if base = "." then [] else base.data
    let t : List Char := targ.data
    let baseSlashed : Bool := b.head? = some Separator
    let targSlashed : Bool := t.head? = some Separator
    if baseSlashed ≠ targSlashed then none
    else
      match relLoop (b.length + 1) b t with
      | (b1, t1, eb) =>
        if eb = ['.', '.'] then none
        else if b1 ≠ [] then
          let seps := b1.count Separator
          let ups := ['.', '.'] ++ (List.replicate seps [Separator, '.', '.']).flatten
          if t1 ≠ [] then some ⟨ups ++ Separator :: t1⟩ else some ⟨ups⟩
        else some ⟨t1⟩

/-! ## The file system seen by `CompressDirectory` -/

/-- A file system entry as `filepath.Walk` meets it.  `name` is the name
under which the containing directory lists the entry, which is also
`info.Name()` of its `os.Lstat` result.

* `file`: a regular file; `openOk` and `copyOk` are the outcomes of `os.Open`
  and of `io.Copy` into the tar writer.
* `symlink`: a symbolic link; `link` is the result of `os.Readlink`, `none`
  when it fails.
* `other`: an entry that is neither regular, directory nor link (device,
  pipe, socket); `headerOk` is the outcome of `tar.FileInfoHeader`.
* `dir`: a directory; `readOk` is the outcome of reading its listing,
  `children` the listing in the order `Walk` visits it.
* `broken`: an entry whose `os.Lstat` fails. -/
inductive Node where
  | file (name : String) (openOk copyOk : Bool) : Node
  | symlink (name : String) (link : Option String) : Node
  | other (name : String) (headerOk : Bool) : Node
  | dir (name : String) (readOk : Bool) (children : List Node) : Node
  | broken (name : String) : Node

/-- The name of an entry: `info.Name()`. -/
def Node.name : Node → String
  | .file n _ _ => n
  | .symlink n _ => n
  | .other n _ => n
  | .dir n _ _ => n
  | .broken n => n

/-- Go `info.IsDir()`. -/
def Node.IsDir : Node → Bool
  | .dir _ _ _ => true
  | _ => false

/-- Whether `os.Lstat` of the entry succeeds. -/
def Node.lstatOk : Node → Bool
  | .broken _ => false
  | _ => true

/-- Whether `filepath.Walk` calls the walk function with a non-nil `err` for
the entry: `os.Lstat` failed, or the entry is a directory whose listing could
not be read. -/
def Node.walkErr : Node → Bool
  | .dir _ readOk _ => !readOk
  | .broken _ => true
  | _ => false

/-- The type flag of a tar header. -/
inductive Typeflag where
  | reg | dir | symlink | other
  deriving DecidableEq, Repr

/-- The fields of a `tar.Header` that `CompressDirectory` decides. -/
structure Header where
  Name : String
  Typeflag : Typeflag
  Linkname : String
  deriving DecidableEq, Repr

/-- Go `tar.FileInfoHeader(info, "")`: the header of an entry with the
info's base name and an empty link name; `none` is the error return. -/
def FileInfoHeader : Node → Option Header
  | .file n _ _ => some ⟨n, .reg, ""⟩
  | .symlink n _ => some ⟨n, .symlink, ""⟩
  | .other n headerOk => if headerOk then some ⟨n, .other, ""⟩ else none
  | .dir n _ _ => some ⟨n, .dir, ""⟩
  | .broken _ => none

/-- The errors with which the walk can end. -/
inductive WalkError where
  | access          -- the error `Walk` hands to the walk function
  | rel             -- `filepath.Rel` failed
  | createHeader    -- "create tar header"
  | writeHeader     -- "write tar header"
  | openFile        -- "open file"
  | copy            -- "write file to tar"
  | createArchive   -- "create archive file"
  deriving DecidableEq, Repr

/-- What the walk function returns: `nil`, `filepath.SkipDir` or an error. -/
inductive WalkResult where
  | ok
  | skipDir
  | fail (e : WalkError)
  deriving DecidableEq, Repr

/-- The destination of the archive: whether `os.Create` succeeds and which
headers the tar writer accepts. -/
structure Dest where
  createOk : Bool
  writeHeaderOk : Header → Bool

/-- Go `archive.CompressOptions`. -/
structure CompressOptions where
  IgnorePatterns : List String
  MaxSize : Int
  ShowProgress : Bool

def defaultIgnorePatterns : List String :=
  [".git", ".svn", ".hg", "node_modules", ".gradle", "build", "DerivedData", "Pods",
   ".idea", ".vscode", "*.xcworkspace", ".DS_Store", "*.log", "__pycache__", "*.pyc",
   "*.class", "target", "dist", "*.tmp", "*.temp"]

/-- Go `archive.DefaultCompressOptions`. -/
def DefaultCompressOptions : CompressOptions :=
  { IgnorePatterns := defaultIgnorePatterns
    MaxSize := 500 * 1024 * 1024
    ShowProgress := true }

/-- The symlink branch of the walk function of `CompressDirectory`
(`if info.Mode()&os.ModeSymlink != 0`): `none` is the early `return nil`
that leaves the entry out, `some h` the header to write. -/
def symlinkHeader (srcDir path : String) (header : Header) : Node → Option Header
  | .symlink _ link =>
    match link with
    | none => none
    | some link =>
      if !IsAbs link then
        let absLink := Join (Dir path) link
        if !HasPrefix absLink srcDir then none
        else some { header with Linkname := link }
      else some { header with Linkname := link }
  | _ => some header

/-- The part of the walk function of `CompressDirectory` after the header is
final: `tarWriter.WriteHeader`, then for a regular file `os.Open` and
`io.Copy`.  The result is the headers written and the function's return. -/
def writeEntry (dest : Dest) (header : Header) : Node → List Header × WalkResult
  | .file _ openOk copyOk =>
    if !dest.writeHeaderOk header then ([], .fail .writeHeader)
    else if !openOk then ([header], .fail .openFile)
    else if !copyOk then ([header], .fail .copy)
    else ([header], .ok)
  | _ =>
    if !dest.writeHeaderOk header then ([], .fail .writeHeader)
    else ([header], .ok)

/-- The walk function `CompressDirectory` passes to `filepath.Walk`, called
for the entry `node` at `path`; `err` says whether `Walk` passes an error.
The result is the headers written to the archive by the call and the
function's return. -/
def walkFn (srcDir : String) (patterns : List String) (dest : Dest)
    (path : String) (node : Node) (err : Bool) : List Header × WalkResult :=
  if err then ([], .fail .access)
  else
    match Rel srcDir path with
    | none => ([], .fail .rel)
    | some relPath =>
      if relPath = "." then ([], .ok)
      else if shouldIgnore relPath node.name patterns then
        if node.IsDir then ([], .skipDir) else ([], .ok)
      else
        match FileInfoHeader node with
        | none => ([], .fail .createHeader)
        | some header =>
          let header := { header with Name := relPath }
          match symlinkHeader srcDir path header node with
          | none => ([], .ok)
          | some header => writeEntry dest header node

mutual
/-- Go `filepath.walk`: the walk function is called for the entry; a
directory whose listing was read and for which the function returned `nil`
is then descended into. -/
def walk (srcDir : String) (patterns : List String) (dest : Dest)
    (path : String) : Node → List Header × WalkResult
  | .dir name readOk children =>
    match walkFn srcDir patterns dest path (.dir name readOk children) (!readOk) with
    | (written, r) =>
      if !readOk ∨ r ≠ .ok then (written, r)
      else
        match walkList srcDir patterns dest path children with
        | (more, r) => (written ++ more, r)
  | .file name openOk copyOk =>
    walkFn srcDir patterns dest path (.file name openOk copyOk) false
  | .symlink name link => walkFn srcDir patterns dest path (.symlink name link) false
  | .other name headerOk => walkFn srcDir patterns dest path (.other name headerOk) false
  | .broken name => walkFn srcDir patterns dest path (.broken name) true
/-- The loop of Go `filepath.walk` over the names of a directory at `path`:
each entry is walked in turn (an entry whose `Lstat` fails is only handed to
the walk function); an error ends the loop, except `SkipDir` coming from a
directory or from the call for a failed `Lstat`, which is dropped. -/
def walkList (srcDir : String) (patterns : List String) (dest : Dest)
    (path : String) : List Node → List Header × WalkResult
  | [] => ([], .ok)
  | c :: cs =>
    match walk srcDir patterns dest (Join path c.name) c with
    | (written, r) =>
      if r ≠ .ok ∧ (if c.lstatOk then !c.IsDir ∨ r ≠ .skipDir else r ≠ .skipDir) then
        (written, r)
      else
        match walkList srcDir patterns dest path cs with
        | (more, r) => (written ++ more, r)
end

/-- Go `filepath.Walk(root, fn)`: the walk of the root, with `SkipDir`
turned into `nil`. -/
def Walk (srcDir : String) (patterns : List String) (dest : Dest)
    (root : Node) : List Header × Option WalkError :=
  match walk srcDir patterns dest srcDir root with
  | (written, .fail e) => (written, some e)
  | (written, _) => (written, none)

/-- Go `unicode.IsSpace`. -/
def isSpace (c : Char) : Bool :=
  c = '\t' ∨ c = '\n' ∨ c.toNat = 0x0B ∨ c.toNat = 0x0C ∨ c = '\r' ∨ c = ' ' ∨
  c.toNat = 0x85 ∨ c.toNat = 0xA0 ∨ c.toNat = 0x1680 ∨
  (0x2000 ≤ c.toNat ∧ c.toNat ≤ 0x200A) ∨ c.toNat = 0x2028 ∨ c.toNat = 0x2029 ∨
  c.toNat = 0x202F ∨ c.toNat = 0x205F ∨ c.toNat = 0x3000

/-- Go `strings.TrimSpace`. -/
def TrimSpace (s : String) : String :=
  ⟨((s.data.dropWhile isSpace).reverse.dropWhile isSpace).reverse⟩

/-- What `bufio.Scanner` makes of the ignore file: the text of each line in
file order, and whether `scanner.Err()` is non-nil at the end. -/
structure ScannedFile where
  lines : List String
  scanErr : Bool

/-- The loop of Go `archive.loadIgnoreFile` over the scanned lines. -/
def ignoreLines : List String → List String
  | [] => []
  | text :: rest =>
    let line := TrimSpace text
    if line ≠ "" ∧ !HasPrefix line "#" then line :: ignoreLines rest
    else ignoreLines rest

/-- Go `archive.loadIgnoreFile`; the argument is `none` when `os.Open` fails.
The result is the pair `(patterns, err)` with `err` as a flag; a failed open
returns no patterns. -/
def loadIgnoreFile : Option ScannedFile → List String × Bool
  | none => ([], true)
  | some f => (ignoreLines f.lines, f.scanErr)

/-- The pattern list `CompressDirectory` matches against: a copy of the
options' patterns, followed by the patterns of the ignore file when loading
it returned no error. -/
def effectivePatterns (ignoreFile : Option ScannedFile) (opts : CompressOptions) :
    List String :=
  let ignorePatterns := [] ++ opts.IgnorePatterns
  match loadIgnoreFile ignoreFile with
  | (userPatterns, false) => ignorePatterns ++ userPatterns
  | (_, true) => ignorePatterns

/-- Go `archive.CompressDirectory(srcDir, destFile, opts)` on the tree `root`
found at `srcDir`, with `ignoreFile` what reading `srcDir/.canopyignore`
gives and `opts = none` the nil pointer.  The result is the sequence of
headers written to the archive and the returned error. -/
def CompressDirectory (srcDir : String) (root : Node) (ignoreFile : Option ScannedFile)
    (dest : Dest) (opts : Option CompressOptions) : List Header × Option WalkError :=
  let opts := match opts with
    | none => DefaultCompressOptions
    | some o => o
  let ignorePatterns := effectivePatterns ignoreFile opts
  if !dest.createOk then ([], some .createArchive)
  else Walk srcDir ignorePatterns dest root

/-! ### Positions in the tree -/

/-- Applies `f` to the element of index `i`. -/
def modifyAt (f : Node → Node) : Nat → List Node → List Node
  | _, [] => []
  | 0, c :: cs => f c :: cs
  | i + 1, c :: cs => c :: modifyAt f i cs

/-- The entry reached from `node`, found at `path`, by following the child
indices `pos`, with the path under which `Walk` visits it. -/
def nodeAt (path : String) (node : Node) : List Nat → Option (String × Node)
  | [] => some (path, node)
  | i :: rest =>
    match node with
    | .dir _ _ children =>
      match children[i]? with
      | none => none
      | some c => nodeAt (Join path c.name) c rest
    | _ => none

/-- The tree without the entry at the position `pos` (and so without what is
below it); the root itself cannot be removed. -/
def removeAt : List Nat → Node → Node
  | [], node => node
  | [i], .dir name readOk children => .dir name readOk (children.eraseIdx i)
  | i :: j :: rest, .dir name readOk children =>
    .dir name readOk (modifyAt (removeAt (j :: rest)) i children)
  | _ :: _, node => node

/-- A visit that wrote nothing and did not stop the walk: the walk function
returned nil, or `SkipDir` for a directory. -/
def Dropped (x : Node) (out : List Header × WalkResult) : Prop :=
  out = ([], .ok) ∨ (out = ([], .skipDir) ∧ x.IsDir = true ∧ x.lstatOk = true)

/-- A destination that can be created and accepts every header. -/
def acceptAll : Dest := ⟨true, fun _ => true⟩

/-- The options `CompressDirectory` works with: the default ones for a nil
pointer. -/
def optsOrDefault : Option CompressOptions → CompressOptions
  | none => DefaultCompressOptions
  | some o => o

/-- The resolved target of a symbolic link in the spec's words: the link text
when it is absolute, else the link text joined against the directory that
contains the link. -/
def resolvedTarget (path link : String) : String :=
  if IsAbs link then Clean link else Join (Dir path) link

/-- A path that lies in the source tree in the spec's words: the source root
or a descendant of it. -/
def insideRoot (srcDir target : String) : Bool :=
  decide (target = srcDir) || HasPrefix target (srcDir ++ "/")

/-! ## `internal/api/scan.go`: the result of a scan -/

/-- Go `api.RiskAssessment`. -/
structure api.RiskAssessment where
  Score : Int
  Confidence : String
  Interpretation : String
  deriving DecidableEq, Repr

/-- Go `api.ScanSummary`. -/
structure api.ScanSummary where
  Total : Int
  Blocker : Int
  High : Int
  Medium : Int
  Low : Int
  Info : Int
  Passed : Int
  deriving DecidableEq, Repr

/-- Go `api.Remediation`. -/
structure api.Remediation where
  Action : String
  Template : String
  deriving DecidableEq, Repr

/-- Go `api.Finding`; the evidence mapping is kept as a list of pairs of
texts. -/
structure api.Finding where
  ID : String
  RuleCode : String
  RuleName : String
  Severity : String
  Message : String
  FilePath : String
  Evidence : List (String × String)
  Remediation : Option api.Remediation
  DocsURL : String
  deriving DecidableEq, Repr

/-- Go `api.ScanResult`; a nil pointer field is `none`, a time is its text. -/
structure api.ScanResult where
  ID : String
  Status : String
  Platform : String
  PolicyVersion : String
  DurationMs : Int
  RiskAssessment : Option api.RiskAssessment
  Summary : Option api.ScanSummary
  Findings : List api.Finding
  Errors : List String
  CreatedAt : String
  CompletedAt : Option String
  deriving DecidableEq, Repr

/-! ## `cmd/scan.go`: the poll loop of `runScan` -/

/-- The progress bar of `runScan`: its maximum, the value it shows, and the
arguments of the `Set` calls made on it so far, oldest first. -/
structure ProgressBar where
  max : Int
  current : Int
  calls : List Int
  deriving DecidableEq, Repr

/-- The call `bar.Set(n)`: the bar shows `n`. -/
def ProgressBar.Set (bar : ProgressBar) (n : Int) : ProgressBar :=
  { bar with current := n, calls := bar.calls ++ [n] }

/-- The bar `runScan` creates before the loop: `progressbar.NewOptions(100, ...)`
unless `--no-progress` or quiet mode is on, in which case `bar` stays nil. -/
def newBar (scanNoProgress quiet : Bool) : Option ProgressBar :=
  if !scanNoProgress ∧ !quiet then some ⟨100, 0, []⟩ else none

/-- The guarded call `bar.Set(n)` of the loop, made only when `bar != nil`. -/
def setIfShown (bar : Option ProgressBar) (n : Int) : Option ProgressBar :=
  match bar with
  | none => none
  | some b => some (b.Set n)

/-- What the `select` of the poll loop receives in one iteration: the
context is done, or the ticker fires and `client.GetScan` answers with an
error or a result. -/
inductive Event where
  | ctxDone
  | tick (resp : Except String api.ScanResult)

/-- How the poll loop ends. `waiting` stands for a loop that has used up the
script of events without returning. -/
inductive PollOutcome where
  | timeout                          -- `fmt.Errorf("scan timeout")`
  | getScanError (e : String)        -- `fmt.Errorf("get scan status: %w", err)`
  | scanFailed                       -- `fmt.Errorf("scan failed")`
  | output (result : api.ScanResult) -- `return outputResults(result)`
  | waiting
  deriving DecidableEq, Repr

/-- A run of the poll loop: how it ended, how many times `client.GetScan`
was called, and the progress bar at the end. -/
structure PollRun where
  outcome : PollOutcome
  queries : Nat
  bar : Option ProgressBar
  deriving DecidableEq, Repr

/-- The `for`/`select` loop of `runScan`, driven by a script of
events; `queries` counts the calls of `client.GetScan` made so far and `bar`
is the progress bar (nil when none is shown). -/
def pollLoop (scanFailOnErr : Bool) : List Event → Nat → Option ProgressBar → PollRun
  | [], queries, bar => ⟨.waiting, queries, bar⟩
  | .ctxDone :: _, queries, bar => ⟨.timeout, queries, bar⟩
  | .tick (.error e) :: _, queries, bar => ⟨.getScanError e, queries + 1, bar⟩
  | .tick (.ok result) :: rest, queries, bar =>
    if result.Status = "COMPLETED" then
      ⟨.output result, queries + 1, setIfShown bar 100⟩
    else if result.Status = "FAILED" then
      if scanFailOnErr then ⟨.scanFailed, queries + 1, bar⟩
      else ⟨.output result, queries + 1, bar⟩
    else if result.Status = "PROCESSING" then
      if result.Summary ≠ none then pollLoop scanFailOnErr rest (queries + 1) (setIfShown bar 50)
      else pollLoop scanFailOnErr rest (queries + 1) bar
    else if result.Status = "EVALUATING" then
      pollLoop scanFailOnErr rest (queries + 1) (setIfShown bar 75)
    else pollLoop scanFailOnErr rest (queries + 1) bar

/-- The script in which the timeout never fires and every query succeeds. -/
def answers (results : List api.ScanResult) : List Event :=
  results.map (fun r => Event.tick (.ok r))

/-- A result of which only the status and the summary are filled in. -/
def resultWith (status : String) (summary : Option api.ScanSummary) : api.ScanResult :=
  { ID := "scan-1", Status := status, Platform := "BOTH", PolicyVersion := "",
    DurationMs := 0, RiskAssessment := none, Summary := summary, Findings := [],
    Errors := [], CreatedAt := "", CompletedAt := none }

/-- A summary with no findings. -/
def emptySummary : api.ScanSummary := ⟨0, 0, 0, 0, 0, 0, 0⟩

/-- A response with status PROCESSING that carries a summary. -/
def Event.isProcessingWithSummary : Event → Bool
  | .tick (.ok r) => r.Status = "PROCESSING" ∧ r.Summary ≠ none
  | _ => false

/-- A response with status EVALUATING. -/
def Event.isEvaluating : Event → Bool
  | .tick (.ok r) => r.Status = "EVALUATING"
  | _ => false

/-- The progress values set during a run, oldest first: the arguments of the
`bar.Set` calls (none when no bar is shown). -/
def progressCalls (run : PollRun) : List Int :=
  match run.bar with
  | none => []
  | some b => b.calls

/-- The progress value shown at the end of a run, when a bar is shown. -/
def progressShown (run : PollRun) : Option Int :=
  match run.bar with
  | none => none
  | some b => some b.current

/-! ## Results with errors -/

deriving instance DecidableEq for Except

/-! ## Lower-casing -/

/-- Go `strings.ToLower`: every character is replaced by its lower-case
form.  The case table of package `unicode` is the parameter `lower`, the
function `unicode.ToLower` on characters. -/
def ToLower (lower : Char → Char) (s : String) : String := ⟨s.data.map lower⟩

/-- The case table restricted to ASCII: `A`-`Z` become `a`-`z`, every other
character is left as it is. -/
def asciiLower (c : Char) : Char := c.toLower

/-! ## `internal/exit/codes.go`: `ParseThreshold` -/

/-- Go `exit.ParseThreshold`: a `switch` on the lower-cased text with
`default: return ThresholdBlocker`. -/
def ParseThreshold (lower : Char → Char) (s : String) : Threshold :=
  let l := ToLower lower s
  if l = "blocker" then ThresholdBlocker
  else if l = "high" then ThresholdHigh
  else if l = "medium" then ThresholdMedium
  else if l = "low" then ThresholdLow
  else ThresholdBlocker

/-! ## `cmd/scan.go`: `outputResults` -/

/-- How `outputResults` ends: with one of its two errors, with
`os.Exit(exitCode)` for a code other than Success, or by returning nil. -/
inductive OutputOutcome where
  | formatError (e : String)   -- `fmt.Errorf("format output: %w", err)`
  | writeError                 -- `fmt.Errorf("write output file: %w", err)`
  | exit (code : Int)          -- `os.Exit(exitCode)`
  | returned                   -- `return nil`
  deriving DecidableEq, Repr

/-- What `outputResults` finds outside the result: the outcome of
`formatter.Format(result)` and, when an output file is named, of
`os.WriteFile`. -/
structure OutputEnv where
  formatted : Except String String
  writeOk : Bool

/-- The summary `outputResults` hands to `DetermineExitCode`: the zero value
of `exit.ScanSummary`, with the four counts copied from the result's summary
when there is one. -/
def exitSummary (summary : Option api.ScanSummary) : ScanSummary :=
  match summary with
  | none => ⟨0, 0, 0, 0⟩
  | some s => ⟨s.Blocker, s.High, s.Medium, s.Low⟩

/-- Go `cmd.outputResults(result)` with the flag values `scanOutput` and
`scanThreshold`. -/
def outputResults (lower : Char → Char) (env : OutputEnv) (scanOutput scanThreshold : String)
    (result : api.ScanResult) : OutputOutcome :=
  match env.formatted with
  | .error e => .formatError e
  | .ok _ =>
    if scanOutput ≠ "" ∧ !env.writeOk then .writeError
    else
      let summary := exitSummary result.Summary
      let exitCode := DetermineExitCode summary (ParseThreshold lower scanThreshold)
      if exitCode ≠ Success then .exit exitCode
      else .returned

/-! ## Package `path/filepath`: `Ext` and `Base` -/

/-- The loop of Go `filepath.Ext`, run on the reversed path: `seen` is the
part of the path behind the current position.  The loop stops at a separator
with the empty result and at a dot with the suffix that begins there. -/
def extLoop : List Char → List Char → List Char
  | [], _ => []
  | c :: before, seen =>
    if c = Separator then []
    else if c = '.' then c :: seen
    else extLoop before (c :: seen)

/-- Go `filepath.Ext`: the suffix beginning at the final dot in the final
element of the path, empty when there is no dot. -/
def Ext (path : String) : String := ⟨extLoop path.data.reverse []⟩

/-- Go `filepath.Base`: the last element of the path, trailing separators
removed first; `.` for the empty path and the separator for a path of
separators only. -/
def Base (path : String) : String :=
  if path = "" then "."
  else
    let stripped := path.data.reverse.dropWhile (fun c => c = Separator)
    let last := (stripped.takeWhile (fun c => c ≠ Separator)).reverse
    if last = [] then "/" else ⟨last⟩

/-! ## `internal/archive/validate.go` -/

def MaxArchiveSize : Int := 500 * 1024 * 1024

/-- Go `type ArchiveType string`. -/
abbrev ArchiveType := String

def ArchiveTypeZip : ArchiveType := "zip"
def ArchiveTypeTarGz : ArchiveType := "tar.gz"

/-- The result of a call of `tarReader.Next()`. -/
inductive TarNext where
  | eof                  -- `io.EOF`
  | err                  -- any other error
  | header (h : Header)
  deriving DecidableEq, Repr

/-- What the system calls and the archive readers find at a path:
* `stat`: the size `os.Stat` reports, `none` when it fails;
* `zipEntries`: `len(reader.File)` after `zip.OpenReader`, `none` when the
  central directory cannot be opened;
* `openOk`: the outcome of `os.Open`;
* `gzipOk`: the outcome of `gzip.NewReader` on the opened file;
* `firstHeader`: the result of the first `tarReader.Next()` on the gzip
  stream. -/
structure ArchiveFile where
  stat : Option Int
  zipEntries : Option Nat
  openOk : Bool
  gzipOk : Bool
  firstHeader : TarNext
  deriving DecidableEq, Repr

/-- The calls made on the file, in the order they are made. -/
inductive FileOp where
  | stat
  | zipOpenReader
  | open
  | gzipNewReader
  | tarNext
  deriving DecidableEq, Repr

/-- The errors of `validateZip`. -/
inductive ZipError where
  | open     -- the error of `zip.OpenReader`
  | empty    -- "archive is empty"
  deriving DecidableEq, Repr

/-- The errors of `validateTarGz`. -/
inductive TarGzError where
  | open     -- the error of `os.Open`
  | gzip     -- "invalid gzip format"
  | empty    -- "archive is empty"
  | tar      -- "invalid tar format"
  deriving DecidableEq, Repr

/-- The errors of `ValidateArchive`. -/
inductive ValidateError where
  | stat                          -- "stat file"
  | tooLarge (size : Int)         -- "file too large: %d bytes (max %d bytes)"
  | invalidZip (e : ZipError)     -- "invalid zip file"
  | invalidTarGz (e : TarGzError) -- "invalid tar.gz file"
  | unsupported (ext : String)    -- "unsupported file type"
  deriving DecidableEq, Repr

/-- Go `archive.validateZip`: the returned error (`none` is nil) and the
calls made on the file. -/
def validateZip (file : ArchiveFile) : Option ZipError × List FileOp :=
  match file.zipEntries with
  | none => (some .open, [.zipOpenReader])
  | some n =>
    if n = 0 then (some .empty, [.zipOpenReader])
    else (none, [.zipOpenReader])

/-- Go `archive.validateTarGz`: the returned error (`none` is nil) and the
calls made on the file. -/
def validateTarGz (file : ArchiveFile) : Option TarGzError × List FileOp :=
  if !file.openOk then (some .open, [.open])
  else if !file.gzipOk then (some .gzip, [.open, .gzipNewReader])
  else
    match file.firstHeader with
    | .eof => (some .empty, [.open, .gzipNewReader, .tarNext])
    | .err => (some .tar, [.open, .gzipNewReader, .tarNext])
    | .header _ => (none, [.open, .gzipNewReader, .tarNext])

/-- Go `archive.ValidateArchive(path)` with `file` what is found at the
path: the returned kind or error, and the calls made on the file. -/
def ValidateArchive (lower : Char → Char) (path : String) (file : ArchiveFile) :
    Except ValidateError ArchiveType × List FileOp :=
  match file.stat with
  | none => (.error .stat, [.stat])
  | some size =>
    if size > MaxArchiveSize then (.error (.tooLarge size), [.stat])
    else
      let ext := ToLower lower (Ext path)
      let name := ToLower lower (Base path)
      if ext = ".zip" then
        match validateZip file with
        | (some e, ops) => (.error (.invalidZip e), .stat :: ops)
        | (none, ops) => (.ok ArchiveTypeZip, .stat :: ops)
      else if ext = ".gz" ∨ HasSuffix name ".tar.gz" ∨ HasSuffix name ".tgz" then
        match validateTarGz file with
        | (some e, ops) => (.error (.invalidTarGz e), .stat :: ops)
        | (none, ops) => (.ok ArchiveTypeTarGz, .stat :: ops)
      else (.error (.unsupported ext), [.stat])

/-- Go `archive.IsArchive`. -/
def IsArchive (lower : Char → Char) (path : String) : Bool :=
  let ext := ToLower lower (Ext path)
  let name := ToLower lower (Base path)
  ext = ".zip" ∨ ext = ".gz" ∨ HasSuffix name ".tar.gz" ∨ HasSuffix name ".tgz"

/-! ## `internal/api`: the client -/

/-- Go `api.APIError`. -/
structure APIError where
  StatusCode : Int
  Message : String
  Code : String
  deriving DecidableEq, Repr

/-- An error returned by the client: an `*APIError`, or an error made by
`fmt.Errorf(context + ": %w", cause)`, which is not an `*APIError`. -/
inductive ClientError where
  | api (e : APIError)
  | wrapped (context cause : String)
  deriving DecidableEq, Repr

/-- An HTTP response: its status code and the outcome of `io.ReadAll` on its
body. -/
structure HTTPResponse where
  StatusCode : Int
  Body : Except String String

/-- One exchange with the service: the outcome of
`http.NewRequestWithContext` (`none` is success) and of `httpClient.Do`. -/
structure Exchange where
  requestErr : Option String
  sent : Except String HTTPResponse

/-- Go `api.CreateScanResponse`; the time is its text. -/
structure CreateScanResponse where
  ID : String
  ProjectID : String
  Status : String
  Platform : String
  CreatedAt : String
  WebSocketURL : String
  deriving DecidableEq, Repr

/-- Go `(*Client).CreateScan`.  `unmarshalScan` is `json.Unmarshal` into a
`CreateScanResponse`, `openErr` the outcome of `os.Open(filePath)` (`none`
is success); `createMultipartForm` never returns an error. -/
def CreateScan (unmarshalScan : String → Except String CreateScanResponse)
    (openErr : Option String) (x : Exchange) : Except ClientError CreateScanResponse :=
  match openErr with
  | some e => .error (.wrapped "open file" e)
  | none =>
    match x.requestErr with
    | some e => .error (.wrapped "create request" e)
    | none =>
      match x.sent with
      | .error e => .error (.wrapped "send request" e)
      | .ok resp =>
        match resp.Body with
        | .error e => .error (.wrapped "read response" e)
        | .ok respBody =>
          if resp.StatusCode ≥ 400 then
            .error (.api { StatusCode := resp.StatusCode, Message := respBody, Code := "" })
          else
            match unmarshalScan respBody with
            | .error e => .error (.wrapped "unmarshal response" e)
            | .ok result => .ok result

/-- Go `(*Client).doRequest`.  `unmarshalErr` is `json.Unmarshal` into the
anonymous error struct, giving its `Error.Message` and `Error.Code`;
`marshal` is the outcome of `json.Marshal(body)`, `none` when `body` is nil;
`unmarshalResult` is `json.Unmarshal` into `result`, `none` when `result` is
nil.  The value is what `result` holds at a nil return. -/
def doRequest {α : Type} (unmarshalErr : String → Except String (String × String))
    (marshal : Option (Except String String)) (x : Exchange)
    (unmarshalResult : Option (String → Except String α)) : Except ClientError (Option α) :=
  match marshal with
  | some (.error e) => .error (.wrapped "marshal request body" e)
  | _ =>
    match x.requestErr with
    | some e => .error (.wrapped "create request" e)
    | none =>
      match x.sent with
      | .error e => .error (.wrapped "send request" e)
      | .ok resp =>
        match resp.Body with
        | .error e => .error (.wrapped "read response body" e)
        | .ok respBody =>
          if resp.StatusCode ≥ 400 then
            match unmarshalErr respBody with
            | .error _ =>
              .error (.api { StatusCode := resp.StatusCode, Message := respBody, Code := "" })
            | .ok (message, code) =>
              .error (.api { StatusCode := resp.StatusCode, Message := message, Code := code })
          else
            match unmarshalResult with
            | none => .ok none
            | some unmarshal =>
              match unmarshal respBody with
              | .error e => .error (.wrapped "unmarshal response" e)
              | .ok result => .ok (some result)

/-- The zero value of `api.ScanResult`. -/
def zeroScanResult : api.ScanResult :=
  { ID := "", Status := "", Platform := "", PolicyVersion := "", DurationMs := 0,
    RiskAssessment := none, Summary := none, Findings := [], Errors := [],
    CreatedAt := "", CompletedAt := none }

/-- Go `(*Client).GetScan`: `doRequest` with no body and `&result` for a
`var result ScanResult`. -/
def GetScan (unmarshalErr : String → Except String (String × String))
    (unmarshalResult : String → Except String api.ScanResult) (x : Exchange) :
    Except ClientError api.ScanResult :=
  match doRequest unmarshalErr none x (some unmarshalResult) with
  | .error e => .error e
  | .ok (some result) => .ok result
  | .ok none => .ok zeroScanResult

/-! ## `cmd/scan.go`: `runScan` -/

/-- The default of the flag `--fail-on-error`, set in `init`. -/
def scanFailOnErrDefault : Bool := true

/-- What `os.Stat(absPath)` finds: a directory with its tree and the reading
of its `.canopyignore`, or another file. -/
inductive ScanTarget where
  | directory (root : Node) (ignoreFile : Option ScannedFile)
  | file (f : ArchiveFile)

/-- What a run of `runScan` meets outside the program. -/
structure RunEnv where
  absPath : Option String       -- `filepath.Abs(path)`, `none` when it fails
  configKey : String            -- `config.GetAPIKey()`
  cmdKey : String               -- `GetAPIKey()` of package `cmd`
  target : Option ScanTarget    -- `os.Stat(absPath)`, `none` when it fails
  tempFile : Option Dest        -- `os.CreateTemp`, `none` when it fails
  openErr : Option String       -- `os.Open` of the archive in `CreateScan`
  exchange : Exchange           -- the upload
  events : List Event           -- what the poll loop receives
  quiet : Bool                  -- `IsQuiet()`

/-- The errors `runScan` returns before the poll loop. -/
inductive RunError where
  | resolvePath                    -- "resolve path"
  | authRequired                   -- "authentication required. Run: canopy auth login"
  | accessPath                     -- "access path"
  | createTemp                     -- "create temp file"
  | compress (e : WalkError)       -- "compress directory"
  | unsupportedFile                -- "unsupported file type. Use .zip or .tar.gz, ..."
  | validate (e : ValidateError)   -- the error of `ValidateArchive`
  | authFailed (message : String)  -- "authentication failed: %s"
  | createScan (e : ClientError)   -- "create scan"
  deriving DecidableEq, Repr

/-- The archive stage of `runScan`: a directory is compressed into a
temporary file with the default options, another file has to pass
`IsArchive` and `ValidateArchive`. -/
def prepareArchive (lower : Char → Char) (absPath : String) (env : RunEnv) :
    ScanTarget → Option RunError
  | .directory root ignoreFile =>
    match env.tempFile with
    | none => some .createTemp
    | some dest =>
      match CompressDirectory absPath root ignoreFile dest none with
      | (_, some e) => some (.compress e)
      | (_, none) => none
  | .file f =>
    if !IsArchive lower absPath then some .unsupportedFile
    else
      match (ValidateArchive lower absPath f).1 with
      | .error e => some (.validate e)
      | .ok _ => none

/-- Go `cmd.runScan`: the error returned before the poll loop, or the run of
the poll loop. -/
def runScan (lower : Char → Char)
    (unmarshalScan : String → Except String CreateScanResponse)
    (scanNoProgress scanFailOnErr : Bool) (env : RunEnv) : Except RunError PollRun :=
  match env.absPath with
  | none => .error .resolvePath
  | some absPath =>
    let apiKey := if env.configKey = "" then env.cmdKey else env.configKey
    if apiKey = "" then .error .authRequired
    else
      match env.target with
      | none => .error .accessPath
      | some target =>
        match prepareArchive lower absPath env target with
        | some e => .error e
        | none =>
          match CreateScan unmarshalScan env.openErr env.exchange with
          | .error (.api apiErr) =>
            if apiErr.StatusCode = 401 ∨ apiErr.StatusCode = 403 then
              .error (.authFailed apiErr.Message)
            else .error (.createScan (.api apiErr))
          | .error e => .error (.createScan e)
          | .ok _ =>
            .ok (pollLoop scanFailOnErr env.events 0 (newBar scanNoProgress env.quiet))

/-- The results handed to `outputResults` in a run of `runScan`, in order:
the argument of the `return outputResults(result)` the run ended with, if it
ended with one. -/
def outputCalls : Except RunError PollRun → List api.ScanResult
  | .ok ⟨.output result, _, _⟩ => [result]
  | _ => []

/-! ### Entries the walk keeps -/

/-- Whether the walk function leaves the entry at `path` out because
`shouldIgnore` matches it. -/
def ignoredAt (srcDir : String) (patterns : List String) (path : String) (node : Node) : Bool :=
  match Rel srcDir path with
  | some relPath => relPath ≠ "." && shouldIgnore relPath node.name patterns
  | none => false

/-- Whether, going from `node` at `path` down the child indices `pos`, no
entry on the way is ignored, the entry reached included. -/
def keptAlong (srcDir : String) (patterns : List String) (path : String) (node : Node) :
    List Nat → Bool
  | [] => !ignoredAt srcDir patterns path node
  | i :: rest =>
    !ignoredAt srcDir patterns path node &&
      match node with
      | .dir _ _ children =>
        match children[i]? with
        | some c => keptAlong srcDir patterns (Join path c.name) c rest
        | none => false
      | _ => false

/-- The body of a structured error response, as the service sends it. -/
def structuredErrorBody : String :=
  "\x7b\"error\":\x7b\"message\":\"Invalid API key\",\"code\":\"unauthorized\"\x7d\x7d"

/-! # Properties -/

/-! ## Strings -/

theorem HasPrefix_iff (s pre : String) : HasPrefix s pre = true ↔ ∃ t : String, s = pre ++ t := by
  unfold HasPrefix
  rw [List.isPrefixOf_iff_prefix]
  constructor
  · rintro ⟨t, ht⟩
    exact ⟨⟨t⟩, String.ext (by simpa using ht.symm)⟩
  · rintro ⟨t, rfl⟩
    exact ⟨t.data, by simp⟩

theorem HasSuffix_iff (s suf : String) : HasSuffix s suf = true ↔ ∃ t : String, s = t ++ suf := by
  unfold HasSuffix
  rw [List.isSuffixOf_iff_suffix]
  constructor
  · rintro ⟨t, ht⟩
    exact ⟨⟨t⟩, String.ext (by simpa using ht.symm)⟩
  · rintro ⟨t, rfl⟩
    exact ⟨t.data, by simp⟩

theorem Contains_iff (s sub : String) :
    Contains s sub = true ↔ ∃ a b : String, s = a ++ sub ++ b := by
  unfold Contains
  rw [decide_eq_true_iff]
  constructor
  · rintro ⟨a, b, h⟩
    exact ⟨⟨a⟩, ⟨b⟩, String.ext (by simpa using h.symm)⟩
  · rintro ⟨a, b, rfl⟩
    exact ⟨a.data, b.data, by simp⟩

theorem TrimPrefix_append (pre t : String) : TrimPrefix (pre ++ t) pre = t := by
  have h : HasPrefix (pre ++ t) pre = true := (HasPrefix_iff _ _).2 ⟨t, rfl⟩
  unfold TrimPrefix
  rw [if_pos h]
  exact String.ext (by simp)

/-! ## Paths -/

/-- The bound on the iterations of the loop of `Rel` is never reached: every
iteration shortens the rest of the base, so any two bounds above its length
give the same result. -/
theorem relLoop_fuel (n : Nat) :
    ∀ (m : Nat) (b t : List Char), b.length < n → b.length < m →
      relLoop n b t = relLoop m b t := by
  induction n with
  | zero => intro m b t hn; omega
  | succ n ih =>
    intro m b t hn hm
    cases m with
    | zero => omega
    | succ m =>
      simp only [relLoop]
      by_cases h1 : b = [] ∨ t = []
      · rw [if_pos h1, if_pos h1]
      · rw [if_neg h1, if_neg h1]
        by_cases h2 : List.takeWhile (fun c => decide (c ≠ Separator)) t ≠
            List.takeWhile (fun c => decide (c ≠ Separator)) b
        · rw [if_pos h2, if_pos h2]
        · rw [if_neg h2, if_neg h2]
          have hb : 0 < b.length := by
            cases b with
            | nil => exact absurd (Or.inl rfl) h1
            | cons c cs => simp
          apply ih
          · simp only [List.length_drop]; omega
          · simp only [List.length_drop]; omega

/-! ## The ignore-pattern matcher -/

/-- The test one iteration of the loop of `shouldIgnore` makes. -/
theorem shouldIgnore_single (path name p : String) :
    shouldIgnore path name [p] =
      if HasPrefix p "*" then HasSuffix name (TrimPrefix p "*")
      else (decide (name = p) || Contains path p) := by
  simp only [shouldIgnore]
  by_cases h1 : HasPrefix p "*" = true
  · simp only [h1, if_true]
    cases HasSuffix name (TrimPrefix p "*") <;> simp
  · simp only [h1]
    by_cases h2 : name = p
    · simp [h2]
    · cases h3 : Contains path p <;> simp [h2]

theorem shouldIgnore_cons (path name p : String) (ps : List String) :
    shouldIgnore path name (p :: ps) =
      (shouldIgnore path name [p] || shouldIgnore path name ps) := by
  rw [shouldIgnore_single]
  simp only [shouldIgnore]
  by_cases h1 : HasPrefix p "*" = true
  · simp only [h1, if_true]
    cases HasSuffix name (TrimPrefix p "*") <;> simp
  · simp only [h1]
    by_cases h2 : name = p
    · simp [h2]
    · cases h3 : Contains path p <;> simp [h2]

theorem shouldIgnore_eq_any (path name : String) (ps : List String) :
    shouldIgnore path name ps = ps.any (fun p => shouldIgnore path name [p]) := by
  induction ps with
  | nil => rfl
  | cons p ps ih => rw [shouldIgnore_cons, ih, List.any_cons]

theorem shouldIgnore_iff_exists (path name : String) (ps : List String) :
    shouldIgnore path name ps = true ↔ ∃ p ∈ ps, shouldIgnore path name [p] = true := by
  rw [shouldIgnore_eq_any, List.any_eq_true]

/-! ## Claims on the severity threshold policy -/

/-- C1: for every summary, `DetermineExitCode` at each of the four thresholds
is `IssuesFound` (1) exactly when a count at or above the threshold's
severity is positive and `Success` (0) otherwise; the summary
`blocker:0, high:2, medium:0, low:0` gives Success at `blocker` and
IssuesFound at `high`. -/
theorem DetermineExitCode_four_thresholds (s : ScanSummary) :
    DetermineExitCode s ThresholdBlocker = (if s.Blocker > 0 then 1 else 0) ∧
    DetermineExitCode s ThresholdHigh = (if s.Blocker > 0 ∨ s.High > 0 then 1 else 0) ∧
    DetermineExitCode s ThresholdMedium =
      (if s.Blocker > 0 ∨ s.High > 0 ∨ s.Medium > 0 then 1 else 0) ∧
    DetermineExitCode s ThresholdLow =
      (if s.Blocker > 0 ∨ s.High > 0 ∨ s.Medium > 0 ∨ s.Low > 0 then 1 else 0) ∧
    IssuesFound = 1 ∧ Success = 0 ∧
    DetermineExitCode ⟨0, 2, 0, 0⟩ ThresholdBlocker = Success ∧
    DetermineExitCode ⟨0, 2, 0, 0⟩ ThresholdHigh = IssuesFound := by
  refine ⟨?_, ?_, ?_, ?_, rfl, rfl, by decide, by decide⟩
  · simp [DetermineExitCode, IssuesFound, Success]
  · simp [DetermineExitCode, IssuesFound, Success, ThresholdBlocker, ThresholdHigh]
  · simp [DetermineExitCode, IssuesFound, Success, ThresholdBlocker, ThresholdHigh,
      ThresholdMedium]
  · simp [DetermineExitCode, IssuesFound, Success, ThresholdBlocker, ThresholdHigh,
      ThresholdMedium, ThresholdLow]

/-- C5, as stated, fails: the threshold `critical` is none of the four
constants, and for a summary with one blocker `DetermineExitCode` returns
Success at it while it returns IssuesFound at `ThresholdBlocker`. -/
theorem DetermineExitCode_unmatched_differs_from_blocker :
    ("critical" : Threshold) ≠ ThresholdBlocker ∧ ("critical" : Threshold) ≠ ThresholdHigh ∧
    ("critical" : Threshold) ≠ ThresholdMedium ∧ ("critical" : Threshold) ≠ ThresholdLow ∧
    DetermineExitCode ⟨1, 0, 0, 0⟩ "critical" = Success ∧
    DetermineExitCode ⟨1, 0, 0, 0⟩ ThresholdBlocker = IssuesFound ∧
    DetermineExitCode ⟨1, 0, 0, 0⟩ "critical" ≠
      DetermineExitCode ⟨1, 0, 0, 0⟩ ThresholdBlocker := by
  decide

/-- C5, amended: for every threshold that is none of `blocker`, `high`,
`medium`, `low`, `DetermineExitCode` returns Success for every summary; it
agrees with the result at `ThresholdBlocker` exactly when the summary has no
positive blocker count. -/
theorem DetermineExitCode_unmatched_is_success (s : ScanSummary) (t : Threshold)
    (hb : t ≠ ThresholdBlocker) (hh : t ≠ ThresholdHigh) (hm : t ≠ ThresholdMedium)
    (hl : t ≠ ThresholdLow) :
    DetermineExitCode s t = Success ∧
    (DetermineExitCode s t = DetermineExitCode s ThresholdBlocker ↔ ¬ s.Blocker > 0) := by
  have h : DetermineExitCode s t = Success := by
    simp [DetermineExitCode, hb, hh, hm, hl]
  refine ⟨h, ?_⟩
  rw [h]
  by_cases hpos : s.Blocker > 0
  · simp [DetermineExitCode, hpos, Success, IssuesFound]
  · simp [DetermineExitCode, hpos]

theorem DetermineExitCode_unmatched_is_success_witness :
    DetermineExitCode ⟨1, 0, 0, 0⟩ "critical" = Success ∧
    (DetermineExitCode ⟨1, 0, 0, 0⟩ "critical" =
      DetermineExitCode ⟨1, 0, 0, 0⟩ ThresholdBlocker ↔ ¬ (1 : Int) > 0) :=
  DetermineExitCode_unmatched_is_success ⟨1, 0, 0, 0⟩ "critical"
    (by decide) (by decide) (by decide) (by decide)

/-! ## Claims on the ignore-pattern matcher -/

/-- C6: for a single pattern `p` that does not begin with `*`,
`shouldIgnore` is true exactly when `p` equals the base name or occurs as a
substring of the relative path. -/
theorem shouldIgnore_plain_pattern (relativePath baseName p : String)
    (hp : ∀ rest : String, p ≠ "*" ++ rest) :
    shouldIgnore relativePath baseName [p] = true ↔
      (p = baseName ∨ ∃ a b : String, relativePath = a ++ p ++ b) := by
  have h1 : ¬ HasPrefix p "*" = true := by
    rw [HasPrefix_iff]
    rintro ⟨t, ht⟩
    exact hp t ht
  rw [shouldIgnore_single, if_neg h1, Bool.or_eq_true, decide_eq_true_iff, Contains_iff]
  constructor
  · rintro (h | h)
    · exact Or.inl h.symm
    · exact Or.inr h
  · rintro (h | h)
    · exact Or.inl h.symm
    · exact Or.inr h

theorem shouldIgnore_plain_pattern_witness :
    shouldIgnore "src/build/output.o" "output.o" ["build"] = true ∧
    (shouldIgnore "src/build/output.o" "output.o" ["build"] = true ↔
      ("build" = "output.o" ∨ ∃ a b : String, "src/build/output.o" = a ++ "build" ++ b)) :=
  ⟨by decide,
   shouldIgnore_plain_pattern "src/build/output.o" "output.o" "build" (by
    intro rest h
    have h2 := congrArg String.data h
    rw [String.data_append] at h2
    simp at h2)⟩

/-- C7: for a single pattern `*ext`, `shouldIgnore` is true exactly when the
base name ends with `ext`; the relative path plays no part, and `*.log` does
not exclude `a.log/file.txt`. -/
theorem shouldIgnore_star_pattern (relativePath baseName ext : String) :
    (shouldIgnore relativePath baseName ["*" ++ ext] = true ↔
      ∃ a : String, baseName = a ++ ext) ∧
    (∀ otherPath : String, shouldIgnore otherPath baseName ["*" ++ ext] =
      shouldIgnore relativePath baseName ["*" ++ ext]) ∧
    shouldIgnore "a.log/file.txt" "file.txt" ["*.log"] = false := by
  have h1 : HasPrefix ("*" ++ ext) "*" = true := (HasPrefix_iff _ _).2 ⟨ext, rfl⟩
  refine ⟨?_, ?_, by decide⟩
  · rw [shouldIgnore_single, if_pos h1, TrimPrefix_append, HasSuffix_iff]
  · intro otherPath
    simp only [shouldIgnore_single, h1, if_true]

/-- C8: `shouldIgnore` is true exactly when at least one pattern of the list
matches the entry on its own; so the result is the same for every
permutation of the list and for the list with duplicates removed. -/
theorem shouldIgnore_any_pattern (relativePath baseName : String) (patterns : List String) :
    (shouldIgnore relativePath baseName patterns = true ↔
      ∃ p ∈ patterns, shouldIgnore relativePath baseName [p] = true) ∧
    (∀ reordered : List String, patterns.Perm reordered →
      shouldIgnore relativePath baseName reordered =
        shouldIgnore relativePath baseName patterns) ∧
    shouldIgnore relativePath baseName patterns.dedup =
      shouldIgnore relativePath baseName patterns := by
  refine ⟨shouldIgnore_iff_exists _ _ _, ?_, ?_⟩
  · intro reordered hperm
    rw [Bool.eq_iff_iff, shouldIgnore_iff_exists, shouldIgnore_iff_exists]
    constructor
    · rintro ⟨p, hp, h⟩
      exact ⟨p, hperm.mem_iff.2 hp, h⟩
    · rintro ⟨p, hp, h⟩
      exact ⟨p, hperm.mem_iff.1 hp, h⟩
  · rw [Bool.eq_iff_iff, shouldIgnore_iff_exists, shouldIgnore_iff_exists]
    constructor
    · rintro ⟨p, hp, h⟩
      exact ⟨p, List.mem_dedup.1 hp, h⟩
    · rintro ⟨p, hp, h⟩
      exact ⟨p, List.mem_dedup.2 hp, h⟩

/-! ## The walk of `CompressDirectory` -/

/-- The walk function looks at a directory's own data only, not at its
listing. -/
theorem walkFn_dir_children (srcDir : String) (patterns : List String) (dest : Dest)
    (path name : String) (readOk : Bool) (cs cs' : List Node) (err : Bool) :
    walkFn srcDir patterns dest path (.dir name readOk cs) err =
      walkFn srcDir patterns dest path (.dir name readOk cs') err := by
  simp only [walkFn, Node.name, Node.IsDir, FileInfoHeader, symlinkHeader, writeEntry]

theorem walkList_cons_dropped (srcDir : String) (patterns : List String) (dest : Dest)
    (path : String) (c : Node) (cs : List Node)
    (h : Dropped c (walk srcDir patterns dest (Join path c.name) c)) :
    walkList srcDir patterns dest path (c :: cs) = walkList srcDir patterns dest path cs := by
  rw [walkList]
  rcases h with h | ⟨h, hd, hl⟩
  · rw [h]
    simp
  · rw [h]
    simp [hd, hl]

theorem walkList_eraseIdx (srcDir : String) (patterns : List String) (dest : Dest)
    (path : String) (c : Node) (cs : List Node) (i : Nat) (hc : cs[i]? = some c)
    (h : Dropped c (walk srcDir patterns dest (Join path c.name) c)) :
    walkList srcDir patterns dest path (cs.eraseIdx i) =
      walkList srcDir patterns dest path cs := by
  induction cs generalizing i with
  | nil => simp
  | cons d ds ih =>
    cases i with
    | zero =>
      simp only [List.getElem?_cons_zero, Option.some.injEq] at hc
      subst hc
      rw [List.eraseIdx_cons_zero, walkList_cons_dropped _ _ _ _ _ _ h]
    | succ i =>
      simp only [List.getElem?_cons_succ] at hc
      rw [List.eraseIdx_cons_succ]
      simp only [walkList]
      rw [ih i hc]

theorem walkList_modifyAt (srcDir : String) (patterns : List String) (dest : Dest)
    (path : String) (f : Node → Node) (c : Node) (cs : List Node) (i : Nat)
    (hc : cs[i]? = some c) (hname : (f c).name = c.name) (hdir : (f c).IsDir = c.IsDir)
    (hstat : (f c).lstatOk = c.lstatOk)
    (h : walk srcDir patterns dest (Join path c.name) (f c) =
      walk srcDir patterns dest (Join path c.name) c) :
    walkList srcDir patterns dest path (modifyAt f i cs) =
      walkList srcDir patterns dest path cs := by
  induction cs generalizing i with
  | nil => simp [modifyAt]
  | cons d ds ih =>
    cases i with
    | zero =>
      simp only [List.getElem?_cons_zero, Option.some.injEq] at hc
      subst hc
      simp only [modifyAt, walkList]
      rw [hname, h, hdir, hstat]
    | succ i =>
      simp only [List.getElem?_cons_succ] at hc
      simp only [modifyAt, walkList]
      rw [ih i hc]

/-- Taking away an entry whose visit wrote nothing and did not stop the walk
leaves the walk of the whole tree unchanged. -/
theorem walk_removeAt (srcDir : String) (patterns : List String) (dest : Dest)
    (pos : List Nat) :
    ∀ (path : String) (root : Node) (p : String) (x : Node),
      nodeAt path root pos = some (p, x) →
      Dropped x (walk srcDir patterns dest p x) →
      walk srcDir patterns dest path (removeAt pos root) =
          walk srcDir patterns dest path root ∧
        (removeAt pos root).name = root.name ∧
        (removeAt pos root).IsDir = root.IsDir ∧
        (removeAt pos root).lstatOk = root.lstatOk := by
  induction pos with
  | nil =>
    intro path root p x _ _
    simp [removeAt]
  | cons i rest ih =>
    intro path root p x hx hdrop
    cases root with
    | dir name readOk cs =>
      simp only [nodeAt] at hx
      cases hc : cs[i]? with
      | none => simp [hc] at hx
      | some c =>
        simp only [hc] at hx
        cases rest with
        | nil =>
          simp only [nodeAt, Option.some.injEq, Prod.mk.injEq] at hx
          obtain ⟨hp, hcx⟩ := hx
          subst hcx
          subst hp
          refine ⟨?_, by simp [removeAt, Node.name], by simp [removeAt, Node.IsDir],
            by simp [removeAt, Node.lstatOk]⟩
          simp only [removeAt, walk]
          rw [walkFn_dir_children srcDir patterns dest path name readOk (cs.eraseIdx i) cs,
            walkList_eraseIdx srcDir patterns dest path c cs i hc hdrop]
        | cons j rest =>
          obtain ⟨hw, hn, hd, hl⟩ := ih (Join path c.name) c p x hx hdrop
          refine ⟨?_, by simp [removeAt, Node.name], by simp [removeAt, Node.IsDir],
            by simp [removeAt, Node.lstatOk]⟩
          simp only [removeAt, walk]
          rw [walkFn_dir_children srcDir patterns dest path name readOk
              (modifyAt (removeAt (j :: rest)) i cs) cs,
            walkList_modifyAt srcDir patterns dest path _ c cs i hc hn hd hl hw]
    | file n o k => simp [nodeAt] at hx
    | symlink n l => simp [nodeAt] at hx
    | other n h => simp [nodeAt] at hx
    | broken n => simp [nodeAt] at hx

theorem CompressDirectory_eq (srcDir : String) (root : Node) (ignoreFile : Option ScannedFile)
    (dest : Dest) (opts : Option CompressOptions) :
    CompressDirectory srcDir root ignoreFile dest opts =
      if !dest.createOk then ([], some .createArchive)
      else Walk srcDir (effectivePatterns ignoreFile (optsOrDefault opts)) dest root := by
  cases opts <;> rfl

theorem CompressDirectory_removeAt (srcDir : String) (ignoreFile : Option ScannedFile)
    (dest : Dest) (opts : Option CompressOptions) (root : Node) (pos : List Nat)
    (path : String) (x : Node) (hx : nodeAt srcDir root pos = some (path, x))
    (hdrop : Dropped x
      (walk srcDir (effectivePatterns ignoreFile (optsOrDefault opts)) dest path x)) :
    CompressDirectory srcDir (removeAt pos root) ignoreFile dest opts =
      CompressDirectory srcDir root ignoreFile dest opts := by
  rw [CompressDirectory_eq, CompressDirectory_eq]
  unfold Walk
  rw [(walk_removeAt srcDir _ dest pos srcDir root path x hx hdrop).1]

/-! ## Claims on the archive builder -/

/-- C2: when `shouldIgnore` matches an entry that the walk of
`CompressDirectory` visits, the visit writes no header: for a directory the
walk function returns `SkipDir` and nothing below the directory is visited,
whatever the directory holds; for any other entry it returns nil.  The
archive produced for a tree holding the entry at any position is the archive
produced for the tree without the entry and what is below it, so it has no
entry for the matched directory or a descendant, and a matched file takes
away only its own entry. -/
theorem CompressDirectory_prunes_ignored (srcDir : String) (ignoreFile : Option ScannedFile)
    (dest : Dest) (opts : Option CompressOptions) (path relPath : String) (x : Node)
    (herr : x.walkErr = false) (hrel : Rel srcDir path = some relPath) (hne : relPath ≠ ".")
    (hig : shouldIgnore relPath x.name
      (effectivePatterns ignoreFile (optsOrDefault opts)) = true) :
    walk srcDir (effectivePatterns ignoreFile (optsOrDefault opts)) dest path x =
      ([], if x.IsDir then .skipDir else .ok) ∧
    ∀ (root : Node) (pos : List Nat), nodeAt srcDir root pos = some (path, x) →
      CompressDirectory srcDir (removeAt pos root) ignoreFile dest opts =
        CompressDirectory srcDir root ignoreFile dest opts := by
  have hfn : walkFn srcDir (effectivePatterns ignoreFile (optsOrDefault opts)) dest path x false =
      ([], if x.IsDir then .skipDir else .ok) := by
    simp only [walkFn, hrel, hne, hig, if_true, if_false, Bool.false_eq_true]
    cases x.IsDir <;> rfl
  have hw : walk srcDir (effectivePatterns ignoreFile (optsOrDefault opts)) dest path x =
      ([], if x.IsDir then .skipDir else .ok) := by
    cases x with
    | dir name readOk cs =>
      have hr : readOk = true := by simpa [Node.walkErr] using herr
      subst hr
      simp only [walk]
      rw [show (!true) = false from rfl, hfn]
      simp [Node.IsDir]
    | file n o k => simpa only [walk] using hfn
    | symlink n l => simpa only [walk] using hfn
    | other n h => simpa only [walk] using hfn
    | broken n => simp [Node.walkErr] at herr
  refine ⟨hw, ?_⟩
  intro root pos hx
  apply CompressDirectory_removeAt srcDir ignoreFile dest opts root pos path x hx
  rw [hw]
  cases x with
  | dir name readOk cs =>
    right
    simp [Node.IsDir, Node.lstatOk]
  | file n o k => left; simp [Node.IsDir]
  | symlink n l => left; simp [Node.IsDir]
  | other n h => left; simp [Node.IsDir]
  | broken n => simp [Node.walkErr] at herr

theorem CompressDirectory_prunes_ignored_witness :
    walk "/proj" (effectivePatterns none (optsOrDefault none)) acceptAll "/proj/a.xcworkspace"
        (.dir "a.xcworkspace" true [.file "contents.xml" true true]) = ([], .skipDir) ∧
    CompressDirectory "/proj"
        (removeAt [1] (.dir "proj" true [.file "main.go" true true,
          .dir "a.xcworkspace" true [.file "contents.xml" true true],
          .file "z.txt" true true])) none acceptAll none =
      CompressDirectory "/proj"
        (.dir "proj" true [.file "main.go" true true,
          .dir "a.xcworkspace" true [.file "contents.xml" true true],
          .file "z.txt" true true]) none acceptAll none ∧
    CompressDirectory "/proj"
        (.dir "proj" true [.file "main.go" true true,
          .dir "a.xcworkspace" true [.file "contents.xml" true true],
          .file "z.txt" true true]) none acceptAll none =
      ([⟨"main.go", .reg, ""⟩, ⟨"z.txt", .reg, ""⟩], none) ∧
    shouldIgnore "a.xcworkspace/contents.xml" "contents.xml"
      (effectivePatterns none (optsOrDefault none)) = false :=
  have h := CompressDirectory_prunes_ignored "/proj" none acceptAll none "/proj/a.xcworkspace"
    "a.xcworkspace" (.dir "a.xcworkspace" true [.file "contents.xml" true true])
    (by decide) (by decide) (by decide) (by decide)
  ⟨h.1, h.2 _ [1] (by rfl), by decide, by decide⟩

/-- A symbolic link that is not ignored gets an entry with its text as link
name, as soon as the text is absolute or the join of the link's directory
and the text begins with the text of the source root. -/
theorem walk_symlink_archived (srcDir : String) (patterns : List String) (dest : Dest)
    (path relPath name link : String) (hrel : Rel srcDir path = some relPath)
    (hne : relPath ≠ ".") (hig : shouldIgnore relPath name patterns = false)
    (hwrite : dest.writeHeaderOk ⟨relPath, .symlink, link⟩ = true)
    (hpass : IsAbs link = true ∨ HasPrefix (Join (Dir path) link) srcDir = true) :
    walk srcDir patterns dest path (.symlink name (some link)) =
      ([⟨relPath, .symlink, link⟩], .ok) := by
  simp only [walk, walkFn, hrel, Bool.false_eq_true, if_false, if_neg hne, Node.name, hig,
    FileInfoHeader, symlinkHeader]
  by_cases habs : IsAbs link = true
  · simp [habs, writeEntry, hwrite]
  · rcases hpass with h | h
    · exact absurd h habs
    · simp [habs, h, writeEntry, hwrite]

/-- C3, on the code: a symbolic link whose resolved target lies outside the
source root is archived in two cases.  The text of the link is absolute: the
test of the target is skipped, so `evil -> /etc/passwd` in the tree at
`/proj` gets an entry.  The text is relative and its join with the link's
directory begins with the text of the source root without lying below it:
`key -> ../proj-secrets/key` in the tree at `/home/u/proj` resolves to
`/home/u/proj-secrets/key`, in a sibling directory, and gets an entry. -/
theorem CompressDirectory_archives_escaping_symlink :
    (insideRoot "/proj" (resolvedTarget "/proj/evil" "/etc/passwd") = false ∧
      CompressDirectory "/proj" (.dir "proj" true [.symlink "evil" (some "/etc/passwd")])
        none acceptAll none = ([⟨"evil", .symlink, "/etc/passwd"⟩], none)) ∧
    (insideRoot "/home/u/proj"
        (resolvedTarget "/home/u/proj/key" "../proj-secrets/key") = false ∧
      resolvedTarget "/home/u/proj/key" "../proj-secrets/key" = "/home/u/proj-secrets/key" ∧
      HasPrefix "/home/u/proj-secrets/key" "/home/u/proj" = true ∧
      CompressDirectory "/home/u/proj"
        (.dir "proj" true [.symlink "key" (some "../proj-secrets/key")])
        none acceptAll none = ([⟨"key", .symlink, "../proj-secrets/key"⟩], none)) ∧
    (∀ (srcDir : String) (patterns : List String) (dest : Dest)
        (path relPath name link : String),
      Rel srcDir path = some relPath → relPath ≠ "." →
      shouldIgnore relPath name patterns = false →
      dest.writeHeaderOk ⟨relPath, .symlink, link⟩ = true →
      (IsAbs link = true ∨ HasPrefix (Join (Dir path) link) srcDir = true) →
      walk srcDir patterns dest path (.symlink name (some link)) =
        ([⟨relPath, .symlink, link⟩], .ok)) := by
  refine ⟨by decide, by decide, ?_⟩
  intro srcDir patterns dest path relPath name link hrel hne hig hwrite hpass
  exact walk_symlink_archived srcDir patterns dest path relPath name link hrel hne hig hwrite
    hpass

/-- What the test of the walk function does leave out: a symbolic link
whose text is relative, and for which the join of the link's directory and
the text does not begin with the text of the source root, gets no entry: the
walk function returns nil without writing, and the archive of a tree holding
the link at any position is the archive of the tree without it. -/
theorem CompressDirectory_skips_relative_escaping_symlink (srcDir : String)
    (ignoreFile : Option ScannedFile) (dest : Dest) (opts : Option CompressOptions)
    (path relPath name link : String)
    (hrel : Rel srcDir path = some relPath) (habs : IsAbs link = false)
    (hout : HasPrefix (Join (Dir path) link) srcDir = false) :
    walk srcDir (effectivePatterns ignoreFile (optsOrDefault opts)) dest path
        (.symlink name (some link)) = ([], .ok) ∧
    ∀ (root : Node) (pos : List Nat),
      nodeAt srcDir root pos = some (path, .symlink name (some link)) →
      CompressDirectory srcDir (removeAt pos root) ignoreFile dest opts =
        CompressDirectory srcDir root ignoreFile dest opts := by
  have hw : walk srcDir (effectivePatterns ignoreFile (optsOrDefault opts)) dest path
      (.symlink name (some link)) = ([], .ok) := by
    simp only [walk, walkFn, hrel, Bool.false_eq_true, if_false]
    by_cases h1 : relPath = "."
    · simp [h1]
    · by_cases h2 : shouldIgnore relPath (Node.symlink name (some link)).name
          (effectivePatterns ignoreFile (optsOrDefault opts)) = true
      · simp [h1, h2, Node.IsDir]
      · simp [h1, h2, FileInfoHeader, symlinkHeader, habs, hout]
  refine ⟨hw, ?_⟩
  intro root pos hx
  apply CompressDirectory_removeAt srcDir ignoreFile dest opts root pos path _ hx
  rw [hw]
  exact Or.inl rfl

theorem CompressDirectory_skips_relative_escaping_symlink_witness :
    walk "/proj" (effectivePatterns none (optsOrDefault none)) acceptAll "/proj/src/up"
        (.symlink "up" (some "../../etc/passwd")) = ([], .ok) ∧
    CompressDirectory "/proj"
        (removeAt [0, 1] (.dir "proj" true [.dir "src" true [.file "m.go" true true,
          .symlink "up" (some "../../etc/passwd")]])) none acceptAll none =
      CompressDirectory "/proj"
        (.dir "proj" true [.dir "src" true [.file "m.go" true true,
          .symlink "up" (some "../../etc/passwd")]]) none acceptAll none ∧
    CompressDirectory "/proj"
        (.dir "proj" true [.dir "src" true [.file "m.go" true true,
          .symlink "up" (some "../../etc/passwd")]]) none acceptAll none =
      ([⟨"src", .dir, ""⟩, ⟨"src/m.go", .reg, ""⟩], none) :=
  have h := CompressDirectory_skips_relative_escaping_symlink "/proj" none acceptAll none
    "/proj/src/up" "src/up" "up" "../../etc/passwd" (by decide) (by decide) (by decide)
  ⟨h.1, h.2 _ [0, 1] (by rfl), by decide⟩

/-! ## The poll loop -/

theorem pollLoop_no_bar (f : Bool) (events : List Event) (q : Nat) :
    (pollLoop f events q none).bar = none := by
  induction events generalizing q with
  | nil => rfl
  | cons e es ih =>
    cases e with
    | ctxDone => rfl
    | tick resp =>
      cases resp with
      | error e => rfl
      | ok r =>
        simp only [pollLoop, setIfShown]
        split_ifs <;> first | rfl | exact ih _

theorem pairwise_le_concat (l : List Int) (n : Int) (hl : l.Pairwise (· ≤ ·))
    (hn : ∀ c ∈ l, c ≤ n) : (l ++ [n]).Pairwise (· ≤ ·) := by
  rw [List.pairwise_append]
  refine ⟨hl, List.pairwise_singleton _ _, ?_⟩
  intro a ha b hb
  rw [List.mem_singleton] at hb
  subst hb
  exact hn a ha

theorem mem_concat_le (l : List Int) (n m : Int) (hn : ∀ c ∈ l, c ≤ m) (hnm : n ≤ m) :
    ∀ c ∈ l ++ [n], c ≤ m := by
  intro c hc
  rw [List.mem_append, List.mem_singleton] at hc
  rcases hc with hc | hc
  · exact hn c hc
  · exact hc ▸ hnm

/-- Once no response sets the progress to 50 any more, a bar whose values are
sorted and at most 75 stays sorted. -/
theorem pollLoop_sorted_after_evaluating (f : Bool) (events : List Event) :
    ∀ (q : Nat) (b : ProgressBar),
      (∀ e ∈ events, e.isProcessingWithSummary = false) →
      b.calls.Pairwise (· ≤ ·) → (∀ c ∈ b.calls, c ≤ 75) →
      (progressCalls (pollLoop f events q (some b))).Pairwise (· ≤ ·) := by
  induction events with
  | nil => intro q b _ hs _; exact hs
  | cons e es ih =>
    intro q b hno hs hle
    have hes : ∀ e ∈ es, e.isProcessingWithSummary = false :=
      fun e he => hno e (List.mem_cons_of_mem _ he)
    cases e with
    | ctxDone => exact hs
    | tick resp =>
      cases resp with
      | error e => exact hs
      | ok r =>
        have hr := hno (.tick (.ok r)) (List.mem_cons_self _ _)
        simp only [Event.isProcessingWithSummary, decide_eq_false_iff_not, not_and,
          not_not] at hr
        simp only [pollLoop, setIfShown]
        by_cases h1 : r.Status = "COMPLETED"
        · rw [if_pos h1]
          exact pairwise_le_concat _ _ hs (fun c hc => le_trans (hle c hc) (by norm_num))
        rw [if_neg h1]
        by_cases h2 : r.Status = "FAILED"
        · rw [if_pos h2]
          cases f <;> exact hs
        rw [if_neg h2]
        by_cases h3 : r.Status = "PROCESSING"
        · rw [if_pos h3, if_neg (not_not.2 (hr h3))]
          exact ih _ _ hes hs hle
        rw [if_neg h3]
        by_cases h4 : r.Status = "EVALUATING"
        · rw [if_pos h4]
          exact ih _ _ hes (pairwise_le_concat _ _ hs hle) (mem_concat_le _ _ _ hle le_rfl)
        · rw [if_neg h4]
          exact ih _ _ hes hs hle

/-- While no EVALUATING response has been handled, a bar whose values are
sorted and at most 50 stays sorted, provided no PROCESSING response with a
summary comes after an EVALUATING one. -/
theorem pollLoop_sorted_before_evaluating (f : Bool) (events : List Event) :
    ∀ (q : Nat) (b : ProgressBar),
      events.Pairwise (fun a e => a.isEvaluating = true → e.isProcessingWithSummary = false) →
      b.calls.Pairwise (· ≤ ·) → (∀ c ∈ b.calls, c ≤ 50) →
      (progressCalls (pollLoop f events q (some b))).Pairwise (· ≤ ·) := by
  induction events with
  | nil => intro q b _ hs _; exact hs
  | cons e es ih =>
    intro q b hpw hs hle
    rw [List.pairwise_cons] at hpw
    obtain ⟨hhead, htail⟩ := hpw
    cases e with
    | ctxDone => exact hs
    | tick resp =>
      cases resp with
      | error e => exact hs
      | ok r =>
        simp only [pollLoop, setIfShown]
        by_cases h1 : r.Status = "COMPLETED"
        · rw [if_pos h1]
          exact pairwise_le_concat _ _ hs (fun c hc => le_trans (hle c hc) (by norm_num))
        rw [if_neg h1]
        by_cases h2 : r.Status = "FAILED"
        · rw [if_pos h2]
          cases f <;> exact hs
        rw [if_neg h2]
        by_cases h3 : r.Status = "PROCESSING"
        · rw [if_pos h3]
          by_cases hsum : r.Summary ≠ none
          · rw [if_pos hsum]
            exact ih _ _ htail (pairwise_le_concat _ _ hs hle)
              (mem_concat_le _ _ _ hle le_rfl)
          · rw [if_neg hsum]
            exact ih _ _ htail hs hle
        rw [if_neg h3]
        by_cases h4 : r.Status = "EVALUATING"
        · rw [if_pos h4]
          have hle75 : ∀ c ∈ b.calls, c ≤ 75 :=
            fun c hc => le_trans (hle c hc) (by norm_num)
          exact pollLoop_sorted_after_evaluating f es _ _
            (fun e he => hhead e he (by simp [Event.isEvaluating, h4]))
            (pairwise_le_concat _ _ hs hle75) (mem_concat_le _ _ _ hle75 le_rfl)
        · rw [if_neg h4]
          exact ih _ _ htail hs hle

/-! ## Claims on the poll loop -/

/-- C4, as stated, fails: with a bar shown, the responses EVALUATING,
PROCESSING (carrying a summary), COMPLETED make the loop set the progress to
75, then 50, then 100; the second value is below the first. -/
theorem pollLoop_progress_can_decrease :
    progressCalls (pollLoop true (answers [resultWith "EVALUATING" none,
        resultWith "PROCESSING" (some emptySummary), resultWith "COMPLETED" none]) 0
        (newBar false false)) = [75, 50, 100] ∧
    ¬ (progressCalls (pollLoop true (answers [resultWith "EVALUATING" none,
        resultWith "PROCESSING" (some emptySummary), resultWith "COMPLETED" none]) 0
        (newBar false false))).Chain' (· ≤ ·) := by
  have h : progressCalls (pollLoop true (answers [resultWith "EVALUATING" none,
      resultWith "PROCESSING" (some emptySummary), resultWith "COMPLETED" none]) 0
      (newBar false false)) = [75, 50, 100] := by decide
  rw [h]
  exact ⟨rfl, by norm_num [List.chain'_cons]⟩

/-- C4, amended: for every script of events in which no PROCESSING response
carrying a summary comes after an EVALUATING response, each progress value
the loop sets is at least the one set before it. -/
theorem pollLoop_progress_monotone (scanFailOnErr scanNoProgress quiet : Bool)
    (events : List Event)
    (h : events.Pairwise
      (fun a e => a.isEvaluating = true → e.isProcessingWithSummary = false)) :
    (progressCalls (pollLoop scanFailOnErr events 0 (newBar scanNoProgress quiet))).Chain'
      (· ≤ ·) := by
  apply List.Pairwise.chain'
  unfold newBar
  split_ifs
  · exact pollLoop_sorted_before_evaluating scanFailOnErr events 0 _ h
      List.Pairwise.nil (by simp)
  · simp [progressCalls, pollLoop_no_bar]

theorem pollLoop_progress_monotone_witness :
    (progressCalls (pollLoop true (answers [resultWith "PROCESSING" (some emptySummary),
        resultWith "PROCESSING" none, resultWith "EVALUATING" none,
        resultWith "COMPLETED" none]) 0 (newBar false false))).Chain' (· ≤ ·) ∧
    progressCalls (pollLoop true (answers [resultWith "PROCESSING" (some emptySummary),
        resultWith "PROCESSING" none, resultWith "EVALUATING" none,
        resultWith "COMPLETED" none]) 0 (newBar false false)) = [50, 75, 100] :=
  ⟨pollLoop_progress_monotone true false false _ (by decide), by decide⟩

/-- The loop goes past every non-terminal response, counting one query for
each, until the first COMPLETED one, at which it returns. -/
theorem pollLoop_to_completed (f : Bool) (pre : List api.ScanResult) (c : api.ScanResult)
    (rest : List Event)
    (hpre : ∀ r ∈ pre, r.Status ≠ "COMPLETED" ∧ r.Status ≠ "FAILED")
    (hc : c.Status = "COMPLETED") :
    ∀ (q : Nat) (bar : Option ProgressBar),
      ∃ bar' : Option ProgressBar, bar'.isSome = bar.isSome ∧
        pollLoop f (answers pre ++ Event.tick (.ok c) :: rest) q bar =
          ⟨.output c, q + pre.length + 1, setIfShown bar' 100⟩ := by
  induction pre with
  | nil =>
    intro q bar
    exact ⟨bar, rfl, by simp [answers, pollLoop, hc]⟩
  | cons r rs ih =>
    intro q bar
    have hr := hpre r (List.mem_cons_self _ _)
    have hrs : ∀ r ∈ rs, r.Status ≠ "COMPLETED" ∧ r.Status ≠ "FAILED" :=
      fun x hx => hpre x (List.mem_cons_of_mem _ hx)
    have hstep : ∃ bar1 : Option ProgressBar, bar1.isSome = bar.isSome ∧
        pollLoop f (answers (r :: rs) ++ Event.tick (.ok c) :: rest) q bar =
          pollLoop f (answers rs ++ Event.tick (.ok c) :: rest) (q + 1) bar1 := by
      simp only [answers, List.map_cons, List.cons_append, pollLoop, if_neg hr.1, if_neg hr.2]
      by_cases h3 : r.Status = "PROCESSING"
      · rw [if_pos h3]
        by_cases hsum : r.Summary ≠ none
        · rw [if_pos hsum]
          exact ⟨setIfShown bar 50, by cases bar <;> rfl, rfl⟩
        · rw [if_neg hsum]
          exact ⟨bar, rfl, rfl⟩
      rw [if_neg h3]
      by_cases h4 : r.Status = "EVALUATING"
      · rw [if_pos h4]
        exact ⟨setIfShown bar 75, by cases bar <;> rfl, rfl⟩
      · rw [if_neg h4]
        exact ⟨bar, rfl, rfl⟩
    obtain ⟨bar1, hb1, hrun⟩ := hstep
    obtain ⟨bar', hb', hfin⟩ := ih hrs (q + 1) bar1
    refine ⟨bar', hb'.trans hb1, ?_⟩
    rw [hrun, hfin, List.length_cons]
    congr 1
    omega

/-- C9: for a script of successful responses whose first terminal status is
COMPLETED, at position `n` (the `n - 1` responses before it being
non-terminal), with no timeout before it, the poll loop makes exactly `n`
queries, returns `outputResults` of that `n`-th response, and leaves the
progress bar, when one is shown, at 100 with `Set(100)` as its last call. -/
theorem pollLoop_completed (scanFailOnErr : Bool) (pre : List api.ScanResult)
    (c : api.ScanResult) (rest : List Event) (bar : Option ProgressBar)
    (hpre : ∀ r ∈ pre, r.Status ≠ "COMPLETED" ∧ r.Status ≠ "FAILED")
    (hc : c.Status = "COMPLETED") :
    (pollLoop scanFailOnErr (answers pre ++ Event.tick (.ok c) :: rest) 0 bar).queries =
      pre.length + 1 ∧
    (pollLoop scanFailOnErr (answers pre ++ Event.tick (.ok c) :: rest) 0 bar).outcome =
      .output c ∧
    (pre ++ [c])[pre.length]? = some c ∧
    (∀ shown : ProgressBar, bar = some shown →
      ∃ final : ProgressBar,
        (pollLoop scanFailOnErr (answers pre ++ Event.tick (.ok c) :: rest) 0 bar).bar =
          some final ∧ final.current = 100 ∧ final.calls.getLast? = some 100) ∧
    (bar = none →
      (pollLoop scanFailOnErr (answers pre ++ Event.tick (.ok c) :: rest) 0 bar).bar = none) := by
  obtain ⟨bar', hb, hrun⟩ := pollLoop_to_completed scanFailOnErr pre c rest hpre hc 0 bar
  rw [hrun]
  refine ⟨by simp, rfl, by simp, ?_, ?_⟩
  · intro shown hshown
    subst hshown
    cases bar' with
    | none => simp at hb
    | some b => exact ⟨b.Set 100, rfl, rfl, by simp [ProgressBar.Set]⟩
  · intro hnone
    subst hnone
    cases bar' with
    | none => rfl
    | some b => simp at hb

theorem pollLoop_completed_witness :
    (pollLoop true (answers [resultWith "PROCESSING" none, resultWith "PROCESSING" none,
        resultWith "EVALUATING" none] ++
        Event.tick (.ok (resultWith "COMPLETED" (some emptySummary))) :: []) 0
        (newBar false false)).queries = 4 ∧
    pollLoop true (answers [resultWith "PROCESSING" none, resultWith "PROCESSING" none,
        resultWith "EVALUATING" none] ++
        Event.tick (.ok (resultWith "COMPLETED" (some emptySummary))) :: []) 0
        (newBar false false) =
      ⟨.output (resultWith "COMPLETED" (some emptySummary)), 4, some ⟨100, 100, [75, 100]⟩⟩ :=
  ⟨(pollLoop_completed true [resultWith "PROCESSING" none, resultWith "PROCESSING" none,
      resultWith "EVALUATING" none] (resultWith "COMPLETED" (some emptySummary)) []
      (newBar false false) (by decide) (by decide)).1, by decide⟩

/-- C10, as stated, fails: with a bar shown at 0, a PROCESSING response that
carries no summary leaves the progress at 0, not 50, and a FAILED response
leaves it at 0, not 100 (whether the failure is returned as an error or
passed on). -/
theorem pollLoop_progress_not_set :
    progressShown (pollLoop true [Event.tick (.ok (resultWith "PROCESSING" none))] 0
      (newBar false false)) = some 0 ∧
    progressShown (pollLoop true [Event.tick (.ok (resultWith "FAILED" none))] 0
      (newBar false false)) = some 0 ∧
    progressShown (pollLoop false [Event.tick (.ok (resultWith "FAILED" none))] 0
      (newBar false false)) = some 0 := by
  decide

/-- C10, amended: after the poll loop, with a bar shown, handles a response,
the progress is 50 when the status is PROCESSING and the response carries a
summary, 75 when the status is EVALUATING and 100 when it is COMPLETED,
whatever else the response holds; a PROCESSING response without a summary
leaves the progress as it was. -/
theorem pollLoop_progress_after_response (scanFailOnErr : Bool) (r : api.ScanResult)
    (q : Nat) (b : ProgressBar) :
    (r.Status = "PROCESSING" → r.Summary ≠ none →
      progressShown (pollLoop scanFailOnErr [Event.tick (.ok r)] q (some b)) = some 50) ∧
    (r.Status = "EVALUATING" →
      progressShown (pollLoop scanFailOnErr [Event.tick (.ok r)] q (some b)) = some 75) ∧
    (r.Status = "COMPLETED" →
      progressShown (pollLoop scanFailOnErr [Event.tick (.ok r)] q (some b)) = some 100) ∧
    (r.Status = "PROCESSING" → r.Summary = none →
      (pollLoop scanFailOnErr [Event.tick (.ok r)] q (some b)).bar = some b) := by
  refine ⟨?_, ?_, ?_, ?_⟩
  · intro h hs
    simp [pollLoop, h, hs, setIfShown, progressShown, ProgressBar.Set]
  · intro h
    simp [pollLoop, h, setIfShown, progressShown, ProgressBar.Set]
  · intro h
    simp [pollLoop, h, setIfShown, progressShown, ProgressBar.Set]
  · intro h hs
    simp [pollLoop, h, hs]

/-! ## Further claims on the severity threshold policy -/

/-- C13: the thresholds are ordered blocker, high, medium, low: for every
summary, IssuesFound at a threshold gives IssuesFound at every later one, and
a summary with at least one blocker gives IssuesFound at all four. -/
theorem DetermineExitCode_monotone_in_threshold (s : ScanSummary) :
    (DetermineExitCode s ThresholdBlocker = IssuesFound →
      DetermineExitCode s ThresholdHigh = IssuesFound ∧
      DetermineExitCode s ThresholdMedium = IssuesFound ∧
      DetermineExitCode s ThresholdLow = IssuesFound) ∧
    (DetermineExitCode s ThresholdHigh = IssuesFound →
      DetermineExitCode s ThresholdMedium = IssuesFound ∧
      DetermineExitCode s ThresholdLow = IssuesFound) ∧
    (DetermineExitCode s ThresholdMedium = IssuesFound →
      DetermineExitCode s ThresholdLow = IssuesFound) ∧
    (s.Blocker ≥ 1 →
      DetermineExitCode s ThresholdBlocker = IssuesFound ∧
      DetermineExitCode s ThresholdHigh = IssuesFound ∧
      DetermineExitCode s ThresholdMedium = IssuesFound ∧
      DetermineExitCode s ThresholdLow = IssuesFound) := by
  have hB : DetermineExitCode s ThresholdBlocker = IssuesFound ↔ s.Blocker > 0 := by
    simp [DetermineExitCode, IssuesFound, Success]
  have hH : DetermineExitCode s ThresholdHigh = IssuesFound ↔ s.Blocker > 0 ∨ s.High > 0 := by
    simp [DetermineExitCode, IssuesFound, Success, ThresholdBlocker, ThresholdHigh]
    omega
  have hM : DetermineExitCode s ThresholdMedium = IssuesFound ↔
      s.Blocker > 0 ∨ s.High > 0 ∨ s.Medium > 0 := by
    simp [DetermineExitCode, IssuesFound, Success, ThresholdBlocker, ThresholdHigh,
      ThresholdMedium]
    omega
  have hL : DetermineExitCode s ThresholdLow = IssuesFound ↔
      s.Blocker > 0 ∨ s.High > 0 ∨ s.Medium > 0 ∨ s.Low > 0 := by
    simp [DetermineExitCode, IssuesFound, Success, ThresholdBlocker, ThresholdHigh,
      ThresholdMedium, ThresholdLow]
    omega
  rw [hB, hH, hM, hL]
  refine ⟨?_, ?_, ?_, ?_⟩
  · intro h
    exact ⟨Or.inl h, Or.inl h, Or.inl h⟩
  · intro h
    rcases h with h | h
    · exact ⟨Or.inl h, Or.inl h⟩
    · exact ⟨Or.inr (Or.inl h), Or.inr (Or.inl h)⟩
  · intro h
    rcases h with h | h | h
    · exact Or.inl h
    · exact Or.inr (Or.inl h)
    · exact Or.inr (Or.inr (Or.inl h))
  · intro h
    have hpos : s.Blocker > 0 := by omega
    exact ⟨hpos, Or.inl hpos, Or.inl hpos, Or.inl hpos⟩

/-! ## Claims on `outputResults` -/

/-- C12: two results whose summaries agree on the blocker, high, medium and
low counts get the same exit code, and the same outcome of `outputResults`,
for every threshold string; the total, info and passed counts play no
part. -/
theorem outputResults_ignores_info (lower : Char → Char) (env : OutputEnv)
    (scanOutput scanThreshold : String) (r1 r2 : api.ScanResult) (s1 s2 : api.ScanSummary)
    (h1 : r1.Summary = some s1) (h2 : r2.Summary = some s2)
    (hb : s1.Blocker = s2.Blocker) (hh : s1.High = s2.High)
    (hm : s1.Medium = s2.Medium) (hl : s1.Low = s2.Low) :
    DetermineExitCode (exitSummary r1.Summary) (ParseThreshold lower scanThreshold) =
      DetermineExitCode (exitSummary r2.Summary) (ParseThreshold lower scanThreshold) ∧
    outputResults lower env scanOutput scanThreshold r1 =
      outputResults lower env scanOutput scanThreshold r2 := by
  have hs : exitSummary r1.Summary = exitSummary r2.Summary := by
    rw [h1, h2]
    simp [exitSummary, hb, hh, hm, hl]
  refine ⟨by rw [hs], ?_⟩
  unfold outputResults
  rw [hs]

theorem outputResults_ignores_info_witness :
    DetermineExitCode (exitSummary (resultWith "COMPLETED" (some ⟨9, 0, 2, 0, 0, 7, 0⟩)).Summary)
        (ParseThreshold asciiLower "HIGH") =
      DetermineExitCode (exitSummary (resultWith "COMPLETED" (some ⟨2, 0, 2, 0, 0, 0, 5⟩)).Summary)
        (ParseThreshold asciiLower "HIGH") ∧
    outputResults asciiLower ⟨.ok "report", true⟩ "" "HIGH"
        (resultWith "COMPLETED" (some ⟨9, 0, 2, 0, 0, 7, 0⟩)) =
      outputResults asciiLower ⟨.ok "report", true⟩ "" "HIGH"
        (resultWith "COMPLETED" (some ⟨2, 0, 2, 0, 0, 0, 5⟩)) :=
  outputResults_ignores_info asciiLower ⟨.ok "report", true⟩ "" "HIGH"
    (resultWith "COMPLETED" (some ⟨9, 0, 2, 0, 0, 7, 0⟩))
    (resultWith "COMPLETED" (some ⟨2, 0, 2, 0, 0, 0, 5⟩))
    ⟨9, 0, 2, 0, 0, 7, 0⟩ ⟨2, 0, 2, 0, 0, 0, 5⟩ rfl rfl rfl rfl rfl rfl

/-! ## Extension and base name -/

theorem extLoop_spec (l : List Char) :
    ∀ seen : List Char, extLoop l seen ≠ [] →
      ∃ k : List Char, extLoop l seen = k.reverse ++ seen ∧ k <+: l ∧
        ∀ c ∈ k, c ≠ Separator := by
  induction l with
  | nil => intro seen h; simp [extLoop] at h
  | cons c cs ih =>
    intro seen h
    simp only [extLoop] at h ⊢
    by_cases h1 : c = Separator
    · simp [h1] at h
    · rw [if_neg h1] at h ⊢
      by_cases h2 : c = '.'
      · rw [if_pos h2]
        refine ⟨[c], by simp, by simp, ?_⟩
        intro d hd
        rw [List.mem_singleton] at hd
        exact hd ▸ h1
      · rw [if_neg h2] at h ⊢
        obtain ⟨k, hk, hpre, hsep⟩ := ih (c :: seen) h
        refine ⟨c :: k, by simp [hk], ?_, ?_⟩
        · obtain ⟨t, ht⟩ := hpre
          exact ⟨t, by simp [← ht]⟩
        · intro d hd
          rcases List.mem_cons.1 hd with hd | hd
          · exact hd ▸ h1
          · exact hsep d hd

theorem prefix_takeWhile_of_forall (p : Char → Bool) (k l : List Char) (hk : k <+: l)
    (hp : ∀ c ∈ k, p c = true) : k <+: l.takeWhile p := by
  induction k generalizing l with
  | nil => exact List.nil_prefix
  | cons c cs ih =>
    obtain ⟨t, ht⟩ := hk
    subst ht
    have hc : p c = true := hp c (List.mem_cons_self _ _)
    simp only [List.cons_append, List.takeWhile_cons, hc, if_true]
    obtain ⟨u, hu⟩ := ih (cs ++ t) ⟨t, rfl⟩ (fun d hd => hp d (List.mem_cons_of_mem _ hd))
    exact ⟨u, by rw [List.cons_append, hu]⟩

/-- A non-empty extension is a suffix of the base name. -/
theorem Ext_suffix_Base (path : String) (h : Ext path ≠ "") :
    (Ext path).data <:+ (Base path).data := by
  have hne : extLoop path.data.reverse [] ≠ [] := by
    intro h0
    apply h
    unfold Ext
    rw [h0]
  obtain ⟨k, hk, hpre, hsep⟩ := extLoop_spec _ [] hne
  have hk0 : k ≠ [] := by
    intro h0
    rw [h0] at hk
    exact hne (by simpa using hk)
  have hpath : path ≠ "" := by
    intro h0
    rw [h0] at hne
    exact hne rfl
  -- the reversed path begins with a character that is no separator
  obtain ⟨c, k', rfl⟩ := List.exists_cons_of_ne_nil hk0
  obtain ⟨t, ht⟩ := hpre
  have hc : c ≠ Separator := hsep c (List.mem_cons_self _ _)
  have hstrip : path.data.reverse.dropWhile (fun c => decide (c = Separator)) =
      path.data.reverse := by
    rw [← ht]
    simp [List.dropWhile_cons, hc]
  have htw : (c :: k') <+: path.data.reverse.takeWhile (fun c => decide (c ≠ Separator)) := by
    apply prefix_takeWhile_of_forall
    · exact ⟨t, ht⟩
    · intro d hd
      simpa using hsep d hd
  have hlast : path.data.reverse.takeWhile (fun c => decide (c ≠ Separator)) ≠ [] := by
    intro h0
    rw [h0] at htw
    exact absurd (List.prefix_nil.1 htw) (List.cons_ne_nil _ _)
  have hext : (Ext path).data = (c :: k').reverse := by
    unfold Ext
    simp [hk]
  have hbase : (Base path).data =
      (path.data.reverse.takeWhile (fun c => decide (c ≠ Separator))).reverse := by
    unfold Base
    rw [if_neg hpath]
    simp only [hstrip]
    rw [if_neg (by simpa using hlast)]
  rw [hext, hbase]
  exact List.reverse_suffix.2 htw

theorem ToLower_suffix (lower : Char → Char) (s t : String) (h : s.data <:+ t.data) :
    (ToLower lower s).data <:+ (ToLower lower t).data := by
  obtain ⟨u, hu⟩ := h
  exact ⟨u.map lower, by simp [ToLower, ← hu]⟩

/-- A path with the lower-cased extension `.zip` has a lower-cased base
name that ends in neither `.tar.gz` nor `.tgz`. -/
theorem zip_ext_not_targz_name (lower : Char → Char) (path : String)
    (h : ToLower lower (Ext path) = ".zip") :
    HasSuffix (ToLower lower (Base path)) ".tar.gz" = false ∧
    HasSuffix (ToLower lower (Base path)) ".tgz" = false := by
  have hne : Ext path ≠ "" := by
    intro h0
    rw [h0] at h
    have h2 := congrArg (fun t : String => t.data.length) h
    simp [ToLower] at h2
  have hsuf := ToLower_suffix lower _ _ (Ext_suffix_Base path hne)
  rw [h] at hsuf
  obtain ⟨u, hu⟩ := hsuf
  constructor
  · rw [Bool.eq_false_iff]
    intro hs
    unfold HasSuffix at hs
    rw [List.isSuffixOf_iff_suffix] at hs
    obtain ⟨v, hv⟩ := hs
    rw [← hu] at hv
    have h1 := congrArg (fun l => (l.reverse).take 4) hv
    simp at h1
  · rw [Bool.eq_false_iff]
    intro hs
    unfold HasSuffix at hs
    rw [List.isSuffixOf_iff_suffix] at hs
    obtain ⟨v, hv⟩ := hs
    rw [← hu] at hv
    have h1 := congrArg (fun l => (l.reverse).take 4) hv
    simp at h1

/-! ## Claims on the archive validator -/

/-- C15: for every file whose size is above 524288000 bytes (500 MiB),
`ValidateArchive` fails with the too-large error, whatever its path and
contents, having made no call on the file but `os.Stat`; a file of exactly
524288000 bytes never gets the too-large error. -/
theorem ValidateArchive_too_large (lower : Char → Char) (path : String) (file : ArchiveFile)
    (size : Int) (hstat : file.stat = some size) (hbig : size > 524288000) :
    ValidateArchive lower path file = (.error (.tooLarge size), [.stat]) ∧
    MaxArchiveSize = 524288000 ∧
    ∀ (otherPath : String) (exact : ArchiveFile) (n : Int), exact.stat = some 524288000 →
      (ValidateArchive lower otherPath exact).1 ≠ .error (.tooLarge n) := by
  have hmax : MaxArchiveSize = 524288000 := by decide
  refine ⟨?_, hmax, ?_⟩
  · unfold ValidateArchive
    rw [hstat]
    simp only []
    rw [if_pos (by rw [hmax]; exact hbig)]
  · intro otherPath exact n hexact
    unfold ValidateArchive
    rw [hexact]
    simp only []
    rw [if_neg (by rw [hmax]; decide)]
    intro h
    split_ifs at h
    · cases hz : validateZip exact with
      | mk e ops => cases e <;> simp [hz] at h
    · cases hz : validateTarGz exact with
      | mk e ops => cases e <;> simp [hz] at h
    · simp at h

theorem ValidateArchive_too_large_witness :
    ValidateArchive asciiLower "/tmp/big.tar.gz"
        ⟨some 524288001, none, true, true, .header ⟨"a", .reg, ""⟩⟩ =
      (.error (.tooLarge 524288001), [.stat]) ∧
    (ValidateArchive asciiLower "/tmp/big.tar.gz"
        ⟨some 524288000, none, true, true, .header ⟨"a", .reg, ""⟩⟩).1 =
      .ok ArchiveTypeTarGz :=
  ⟨(ValidateArchive_too_large asciiLower "/tmp/big.tar.gz"
      ⟨some 524288001, none, true, true, .header ⟨"a", .reg, ""⟩⟩ 524288001 rfl
      (by decide)).1, by decide⟩

/-- C16: for every file within the size limit whose lower-cased extension is
neither `.zip` nor `.gz` and whose lower-cased base name ends in neither
`.tar.gz` nor `.tgz`, `ValidateArchive` fails with the unsupported-type error
after `os.Stat` alone, so whatever the file holds; a `.zip` path can only
yield the kind zip, and a `.gz`, `.tar.gz` or `.tgz` path only the kind
tar.gz. -/
theorem ValidateArchive_unsupported (lower : Char → Char) (path : String) (file : ArchiveFile)
    (size : Int) (hstat : file.stat = some size) (hsize : size ≤ 524288000)
    (hzip : ToLower lower (Ext path) ≠ ".zip") (hgz : ToLower lower (Ext path) ≠ ".gz")
    (htar : HasSuffix (ToLower lower (Base path)) ".tar.gz" = false)
    (htgz : HasSuffix (ToLower lower (Base path)) ".tgz" = false) :
    ValidateArchive lower path file =
      (.error (.unsupported (ToLower lower (Ext path))), [.stat]) ∧
    (∀ other : ArchiveFile, other.stat = file.stat →
      ValidateArchive lower path other = ValidateArchive lower path file) ∧
    (∀ (p : String) (f : ArchiveFile) (kind : ArchiveType),
      ToLower lower (Ext p) = ".zip" →
      (ValidateArchive lower p f).1 = .ok kind → kind = ArchiveTypeZip) ∧
    (∀ (p : String) (f : ArchiveFile) (kind : ArchiveType),
      (ToLower lower (Ext p) = ".gz" ∨ HasSuffix (ToLower lower (Base p)) ".tar.gz" = true ∨
        HasSuffix (ToLower lower (Base p)) ".tgz" = true) →
      (ValidateArchive lower p f).1 = .ok kind → kind = ArchiveTypeTarGz) := by
  have hmax : MaxArchiveSize = 524288000 := by decide
  have hmain : ∀ other : ArchiveFile, other.stat = some size →
      ValidateArchive lower path other =
        (.error (.unsupported (ToLower lower (Ext path))), [.stat]) := by
    intro other hother
    unfold ValidateArchive
    rw [hother]
    simp only []
    rw [if_neg (by rw [hmax]; omega), if_neg hzip]
    rw [if_neg (by simp [hgz, htar, htgz])]
  refine ⟨hmain file hstat, ?_, ?_, ?_⟩
  · intro other hother
    rw [hmain other (hother.trans hstat), hmain file hstat]
  · intro p f kind hext hok
    unfold ValidateArchive at hok
    cases hs : f.stat with
    | none => simp [hs] at hok
    | some sz =>
      simp only [hs] at hok
      by_cases hb : sz > MaxArchiveSize
      · simp [hb] at hok
      · rw [if_neg hb, if_pos hext] at hok
        cases hz : validateZip f with
        | mk e ops =>
          cases e with
          | some e => simp [hz] at hok
          | none =>
            simp only [hz] at hok
            exact (Except.ok.inj hok).symm
  · intro p f kind hcond hok
    have hnz : ToLower lower (Ext p) ≠ ".zip" := by
      intro hz
      obtain ⟨h1, h2⟩ := zip_ext_not_targz_name lower p hz
      rcases hcond with h | h | h
      · rw [hz] at h
        exact absurd h (by decide)
      · rw [h1] at h
        exact absurd h (by decide)
      · rw [h2] at h
        exact absurd h (by decide)
    unfold ValidateArchive at hok
    cases hs : f.stat with
    | none => simp [hs] at hok
    | some sz =>
      simp only [hs] at hok
      by_cases hb : sz > MaxArchiveSize
      · simp [hb] at hok
      · rw [if_neg hb, if_neg hnz, if_pos hcond] at hok
        cases hz : validateTarGz f with
        | mk e ops =>
          cases e with
          | some e => simp [hz] at hok
          | none =>
            simp only [hz] at hok
            exact (Except.ok.inj hok).symm

theorem ValidateArchive_unsupported_witness :
    ValidateArchive asciiLower "/home/u/App.RAR" ⟨some 1024, some 3, true, true, .err⟩ =
      (.error (.unsupported ".rar"), [.stat]) :=
  (ValidateArchive_unsupported asciiLower "/home/u/App.RAR"
    ⟨some 1024, some 3, true, true, .err⟩ 1024 rfl (by decide) (by decide) (by decide)
    (by decide) (by decide)).1

/-- C17: within the size limit, `ValidateArchive` fails with the
empty-archive error for a `.zip` path whose central directory opens with no
entry and for a `.gz`, `.tar.gz` or `.tgz` path whose gzip stream opens and
whose first `tarReader.Next()` returns EOF; it succeeds for a zip with at
least one entry and for a gzip stream whose first header decodes, after one
single call of `tarReader.Next()`. -/
theorem ValidateArchive_empty_or_first_entry (lower : Char → Char) (path : String)
    (file : ArchiveFile) (size : Int) (hstat : file.stat = some size)
    (hsize : size ≤ MaxArchiveSize) :
    (ToLower lower (Ext path) = ".zip" → file.zipEntries = some 0 →
      ValidateArchive lower path file =
        (.error (.invalidZip .empty), [.stat, .zipOpenReader])) ∧
    (∀ n : Nat, ToLower lower (Ext path) = ".zip" → file.zipEntries = some n → 0 < n →
      ValidateArchive lower path file = (.ok ArchiveTypeZip, [.stat, .zipOpenReader])) ∧
    (ToLower lower (Ext path) ≠ ".zip" →
      (ToLower lower (Ext path) = ".gz" ∨
        HasSuffix (ToLower lower (Base path)) ".tar.gz" = true ∨
        HasSuffix (ToLower lower (Base path)) ".tgz" = true) →
      file.openOk = true → file.gzipOk = true → file.firstHeader = .eof →
      ValidateArchive lower path file =
        (.error (.invalidTarGz .empty), [.stat, .open, .gzipNewReader, .tarNext])) ∧
    (∀ h : Header, ToLower lower (Ext path) ≠ ".zip" →
      (ToLower lower (Ext path) = ".gz" ∨
        HasSuffix (ToLower lower (Base path)) ".tar.gz" = true ∨
        HasSuffix (ToLower lower (Base path)) ".tgz" = true) →
      file.openOk = true → file.gzipOk = true → file.firstHeader = .header h →
      ValidateArchive lower path file =
        (.ok ArchiveTypeTarGz, [.stat, .open, .gzipNewReader, .tarNext])) := by
  have hbig : ¬ size > MaxArchiveSize := by omega
  refine ⟨?_, ?_, ?_, ?_⟩
  · intro hext hz
    unfold ValidateArchive
    rw [hstat]
    simp only []
    rw [if_neg hbig, if_pos hext]
    simp [validateZip, hz]
  · intro n hext hz hn
    unfold ValidateArchive
    rw [hstat]
    simp only []
    rw [if_neg hbig, if_pos hext]
    have hn0 : n ≠ 0 := by omega
    simp [validateZip, hz, hn0]
  · intro hext hcond ho hg hf
    unfold ValidateArchive
    rw [hstat]
    simp only []
    rw [if_neg hbig, if_neg hext, if_pos hcond]
    simp [validateTarGz, ho, hg, hf]
  · intro h hext hcond ho hg hf
    unfold ValidateArchive
    rw [hstat]
    simp only []
    rw [if_neg hbig, if_neg hext, if_pos hcond]
    simp [validateTarGz, ho, hg, hf]

theorem ValidateArchive_empty_or_first_entry_witness :
    ValidateArchive asciiLower "/tmp/empty.zip" ⟨some 22, some 0, true, false, .err⟩ =
      (.error (.invalidZip .empty), [.stat, .zipOpenReader]) ∧
    ValidateArchive asciiLower "/tmp/empty.tgz" ⟨some 30, none, true, true, .eof⟩ =
      (.error (.invalidTarGz .empty), [.stat, .open, .gzipNewReader, .tarNext]) :=
  ⟨(ValidateArchive_empty_or_first_entry asciiLower "/tmp/empty.zip"
      ⟨some 22, some 0, true, false, .err⟩ 22 rfl (by decide)).1 (by decide) rfl,
   (ValidateArchive_empty_or_first_entry asciiLower "/tmp/empty.tgz"
      ⟨some 30, none, true, true, .eof⟩ 30 rfl (by decide)).2.2.1 (by decide) (by decide)
      rfl rfl rfl⟩

/-! ## Further claims on the poll loop -/

/-- The loop goes past every non-terminal response, counting one query for
each; only the progress bar may change, and it stays shown or absent. -/
theorem pollLoop_skip_nonterminal (f : Bool) (pre : List api.ScanResult) (rest : List Event)
    (hpre : ∀ r ∈ pre, r.Status ≠ "COMPLETED" ∧ r.Status ≠ "FAILED") :
    ∀ (q : Nat) (bar : Option ProgressBar),
      ∃ bar' : Option ProgressBar, bar'.isSome = bar.isSome ∧
        pollLoop f (answers pre ++ rest) q bar = pollLoop f rest (q + pre.length) bar' := by
  induction pre with
  | nil =>
    intro q bar
    exact ⟨bar, rfl, by simp [answers]⟩
  | cons r rs ih =>
    intro q bar
    have hr := hpre r (List.mem_cons_self _ _)
    have hrs : ∀ r ∈ rs, r.Status ≠ "COMPLETED" ∧ r.Status ≠ "FAILED" :=
      fun x hx => hpre x (List.mem_cons_of_mem _ hx)
    have hstep : ∃ bar1 : Option ProgressBar, bar1.isSome = bar.isSome ∧
        pollLoop f (answers (r :: rs) ++ rest) q bar =
          pollLoop f (answers rs ++ rest) (q + 1) bar1 := by
      simp only [answers, List.map_cons, List.cons_append, pollLoop, if_neg hr.1, if_neg hr.2]
      by_cases h3 : r.Status = "PROCESSING"
      · rw [if_pos h3]
        by_cases hsum : r.Summary ≠ none
        · rw [if_pos hsum]
          exact ⟨setIfShown bar 50, by cases bar <;> rfl, rfl⟩
        · rw [if_neg hsum]
          exact ⟨bar, rfl, rfl⟩
      rw [if_neg h3]
      by_cases h4 : r.Status = "EVALUATING"
      · rw [if_pos h4]
        exact ⟨setIfShown bar 75, by cases bar <;> rfl, rfl⟩
      · rw [if_neg h4]
        exact ⟨bar, rfl, rfl⟩
    obtain ⟨bar1, hb1, hrun⟩ := hstep
    obtain ⟨bar', hb', hfin⟩ := ih hrs (q + 1) bar1
    refine ⟨bar', hb'.trans hb1, ?_⟩
    rw [hrun, hfin, List.length_cons]
    congr 1
    omega

/-- C18: when the response after any number of non-terminal ones has status
FAILED, the loop stops with that query: with the fail-on-error flag set (its
default) it returns the error "scan failed" and no result reaches
`outputResults`; with the flag cleared it returns `outputResults` of that
result.  What the script holds after the response plays no part. -/
theorem pollLoop_failed (pre : List api.ScanResult) (r : api.ScanResult) (rest : List Event)
    (bar : Option ProgressBar)
    (hpre : ∀ x ∈ pre, x.Status ≠ "COMPLETED" ∧ x.Status ≠ "FAILED")
    (hr : r.Status = "FAILED") :
    (pollLoop true (answers pre ++ Event.tick (.ok r) :: rest) 0 bar).outcome = .scanFailed ∧
    (pollLoop true (answers pre ++ Event.tick (.ok r) :: rest) 0 bar).queries =
      pre.length + 1 ∧
    (pollLoop false (answers pre ++ Event.tick (.ok r) :: rest) 0 bar).outcome = .output r ∧
    (pollLoop false (answers pre ++ Event.tick (.ok r) :: rest) 0 bar).queries =
      pre.length + 1 ∧
    (∀ (flag : Bool) (other : List Event),
      pollLoop flag (answers pre ++ Event.tick (.ok r) :: other) 0 bar =
        pollLoop flag (answers pre ++ Event.tick (.ok r) :: rest) 0 bar) ∧
    scanFailOnErrDefault = true := by
  have hne : ¬ r.Status = "COMPLETED" := by rw [hr]; decide
  have key : ∀ (flag : Bool) (other : List Event),
      ∃ bar' : Option ProgressBar,
        pollLoop flag (answers pre ++ Event.tick (.ok r) :: other) 0 bar =
          ⟨if flag then .scanFailed else .output r, pre.length + 1, bar'⟩ ∧
        ∀ again : List Event,
          pollLoop flag (answers pre ++ Event.tick (.ok r) :: again) 0 bar =
            pollLoop flag (answers pre ++ Event.tick (.ok r) :: other) 0 bar := by
    intro flag other
    obtain ⟨bar', _, hskip⟩ :=
      pollLoop_skip_nonterminal flag pre (Event.tick (.ok r) :: other) hpre 0 bar
    have hstop : ∀ tail : List Event, pollLoop flag (Event.tick (.ok r) :: tail)
        (0 + pre.length) bar' =
        ⟨if flag then .scanFailed else .output r, pre.length + 1, bar'⟩ := by
      intro tail
      simp only [pollLoop, if_neg hne, if_pos hr, Nat.zero_add]
      cases flag <;> rfl
    refine ⟨bar', by rw [hskip, hstop], ?_⟩
    intro again
    -- the bar after the non-terminal responses does not depend on what follows
    have hsame : ∀ (l : List api.ScanResult) (q : Nat) (b : Option ProgressBar)
        (t1 t2 : List Event), (∀ x ∈ l, x.Status ≠ "COMPLETED" ∧ x.Status ≠ "FAILED") →
        pollLoop flag (answers l ++ Event.tick (.ok r) :: t1) q b =
          pollLoop flag (answers l ++ Event.tick (.ok r) :: t2) q b := by
      intro l
      induction l with
      | nil =>
        intro q b t1 t2 _
        simp only [answers, List.map_nil, List.nil_append, pollLoop, if_neg hne, if_pos hr]
      | cons x xs ih =>
        intro q b t1 t2 hl
        have hx := hl x (List.mem_cons_self _ _)
        have hxs : ∀ y ∈ xs, y.Status ≠ "COMPLETED" ∧ y.Status ≠ "FAILED" :=
          fun y hy => hl y (List.mem_cons_of_mem _ hy)
        simp only [answers, List.map_cons, List.cons_append, pollLoop, if_neg hx.1,
          if_neg hx.2]
        have ih' := fun q b => ih q b t1 t2 hxs
        simp only [answers] at ih'
        split_ifs <;> exact ih' _ _
    exact hsame pre 0 bar again other hpre
  obtain ⟨b1, h1, _⟩ := key true rest
  obtain ⟨b2, h2, _⟩ := key false rest
  refine ⟨by rw [h1]; rfl, by rw [h1], by rw [h2]; rfl, by rw [h2], ?_, rfl⟩
  intro flag other
  obtain ⟨_, _, h3⟩ := key flag rest
  exact h3 other

theorem pollLoop_failed_witness :
    pollLoop true (answers [resultWith "PROCESSING" none] ++
        Event.tick (.ok (resultWith "FAILED" none)) ::
          [Event.tick (.ok (resultWith "COMPLETED" none))]) 0 (newBar false false) =
      ⟨.scanFailed, 2, some ⟨100, 0, []⟩⟩ ∧
    (pollLoop false (answers [resultWith "PROCESSING" none] ++
        Event.tick (.ok (resultWith "FAILED" none)) ::
          [Event.tick (.ok (resultWith "COMPLETED" none))]) 0 (newBar false false)).outcome =
      .output (resultWith "FAILED" none) :=
  ⟨by decide,
   (pollLoop_failed [resultWith "PROCESSING" none] (resultWith "FAILED" none)
      [Event.tick (.ok (resultWith "COMPLETED" none))] (newBar false false)
      (by decide) (by decide)).2.2.1⟩

/-- C19: when the query number `k` is the first to fail, the `k - 1`
responses before it being non-terminal, the loop makes exactly `k` queries,
returns the error "get scan status" wrapping the error of that query, and
hands no result to `outputResults`; what the script holds after the failure
is not looked at. -/
theorem pollLoop_query_error (scanFailOnErr : Bool) (pre : List api.ScanResult) (e : String)
    (rest : List Event) (bar : Option ProgressBar)
    (hpre : ∀ r ∈ pre, r.Status ≠ "COMPLETED" ∧ r.Status ≠ "FAILED") :
    (pollLoop scanFailOnErr (answers pre ++ Event.tick (.error e) :: rest) 0 bar).queries =
      pre.length + 1 ∧
    (pollLoop scanFailOnErr (answers pre ++ Event.tick (.error e) :: rest) 0 bar).outcome =
      .getScanError e ∧
    (∀ r : api.ScanResult,
      (pollLoop scanFailOnErr (answers pre ++ Event.tick (.error e) :: rest) 0 bar).outcome ≠
        .output r) := by
  obtain ⟨bar', _, hskip⟩ :=
    pollLoop_skip_nonterminal scanFailOnErr pre (Event.tick (.error e) :: rest) hpre 0 bar
  rw [hskip]
  simp [pollLoop]

theorem pollLoop_query_error_witness :
    (pollLoop true (answers [resultWith "PROCESSING" none, resultWith "EVALUATING" none] ++
        Event.tick (.error "connection reset") ::
          [Event.tick (.ok (resultWith "COMPLETED" none))]) 0 (newBar false false)).queries =
      3 ∧
    (pollLoop true (answers [resultWith "PROCESSING" none, resultWith "EVALUATING" none] ++
        Event.tick (.error "connection reset") ::
          [Event.tick (.ok (resultWith "COMPLETED" none))]) 0 (newBar false false)).outcome =
      .getScanError "connection reset" :=
  have h := pollLoop_query_error true
    [resultWith "PROCESSING" none, resultWith "EVALUATING" none] "connection reset"
    [Event.tick (.ok (resultWith "COMPLETED" none))] (newBar false false) (by decide)
  ⟨h.1, h.2.1⟩

/-- The loop hands to `outputResults` only a response of the script whose
status is COMPLETED or FAILED. -/
theorem pollLoop_output_terminal (f : Bool) (events : List Event) :
    ∀ (q : Nat) (bar : Option ProgressBar) (r : api.ScanResult),
      (pollLoop f events q bar).outcome = .output r →
      (r.Status = "COMPLETED" ∨ r.Status = "FAILED") ∧ Event.tick (.ok r) ∈ events := by
  induction events with
  | nil => intro q bar r h; simp [pollLoop] at h
  | cons e es ih =>
    intro q bar r h
    cases e with
    | ctxDone => simp [pollLoop] at h
    | tick resp =>
      cases resp with
      | error e => simp [pollLoop] at h
      | ok x =>
        simp only [pollLoop] at h
        by_cases h1 : x.Status = "COMPLETED"
        · rw [if_pos h1] at h
          simp only [PollOutcome.output.injEq] at h
          subst h
          exact ⟨Or.inl h1, List.mem_cons_self _ _⟩
        rw [if_neg h1] at h
        by_cases h2 : x.Status = "FAILED"
        · rw [if_pos h2] at h
          cases f with
          | true => simp at h
          | false =>
            simp only [Bool.false_eq_true, if_false, PollOutcome.output.injEq] at h
            subst h
            exact ⟨Or.inr h2, List.mem_cons_self _ _⟩
        rw [if_neg h2] at h
        have hrest : ∃ (q' : Nat) (bar' : Option ProgressBar),
            (pollLoop f es q' bar').outcome = .output r := by
          split_ifs at h <;> exact ⟨_, _, h⟩
        obtain ⟨q', bar', h'⟩ := hrest
        obtain ⟨hterm, hmem⟩ := ih q' bar' r h'
        exact ⟨hterm, List.mem_cons_of_mem _ hmem⟩

/-- A run of `runScan` that gets past the upload is the run of the poll loop
on the events of the environment, from no query made and the new bar. -/
theorem runScan_ok (lower : Char → Char)
    (unmarshalScan : String → Except String CreateScanResponse)
    (scanNoProgress scanFailOnErr : Bool) (env : RunEnv) (run : PollRun)
    (h : runScan lower unmarshalScan scanNoProgress scanFailOnErr env = .ok run) :
    run = pollLoop scanFailOnErr env.events 0 (newBar scanNoProgress env.quiet) := by
  unfold runScan at h
  cases ha : env.absPath with
  | none => simp [ha] at h
  | some absPath =>
    simp only [ha] at h
    by_cases hk : (if env.configKey = "" then env.cmdKey else env.configKey) = ""
    · simp [hk] at h
    · simp only [hk, if_false] at h
      cases ht : env.target with
      | none => simp [ht] at h
      | some target =>
        simp only [ht] at h
        cases hp : prepareArchive lower absPath env target with
        | some e => simp [hp] at h
        | none =>
          simp only [hp] at h
          cases hc : CreateScan unmarshalScan env.openErr env.exchange with
          | error e =>
            cases e with
            | api apiErr =>
              simp only [hc] at h
              split_ifs at h
            | wrapped c m => simp [hc] at h
          | ok resp =>
            simp only [hc] at h
            exact (Except.ok.inj h).symm

/-- C20: in every run of `runScan`, at most one result is handed to
`outputResults`, and it is a response of the status queries whose status is
COMPLETED or FAILED; a response with any other status makes the loop go on
to the next event, with one more query counted. -/
theorem runScan_outputs_terminal_once (lower : Char → Char)
    (unmarshalScan : String → Except String CreateScanResponse)
    (scanNoProgress scanFailOnErr : Bool) (env : RunEnv) :
    (outputCalls (runScan lower unmarshalScan scanNoProgress scanFailOnErr env)).length ≤ 1 ∧
    (∀ r ∈ outputCalls (runScan lower unmarshalScan scanNoProgress scanFailOnErr env),
      (r.Status = "COMPLETED" ∨ r.Status = "FAILED") ∧ Event.tick (.ok r) ∈ env.events) ∧
    (∀ (r : api.ScanResult) (rest : List Event) (q : Nat) (bar : Option ProgressBar),
      r.Status ≠ "COMPLETED" → r.Status ≠ "FAILED" →
      ∃ bar' : Option ProgressBar,
        pollLoop scanFailOnErr (Event.tick (.ok r) :: rest) q bar =
          pollLoop scanFailOnErr rest (q + 1) bar') := by
  refine ⟨?_, ?_, ?_⟩
  · cases hrun : runScan lower unmarshalScan scanNoProgress scanFailOnErr env with
    | error e => simp [outputCalls]
    | ok run =>
      obtain ⟨outcome, queries, bar⟩ := run
      cases outcome <;> simp [outputCalls]
  · intro r hr
    cases hrun : runScan lower unmarshalScan scanNoProgress scanFailOnErr env with
    | error e => simp [hrun, outputCalls] at hr
    | ok run =>
      rw [hrun] at hr
      obtain ⟨outcome, queries, bar⟩ := run
      cases outcome with
      | output x =>
        simp only [outputCalls, List.mem_singleton] at hr
        subst hr
        have hl := runScan_ok lower unmarshalScan scanNoProgress scanFailOnErr env _ hrun
        exact pollLoop_output_terminal scanFailOnErr env.events 0
          (newBar scanNoProgress env.quiet) r (by rw [← hl])
      | timeout => simp [outputCalls] at hr
      | getScanError e => simp [outputCalls] at hr
      | scanFailed => simp [outputCalls] at hr
      | waiting => simp [outputCalls] at hr
  · intro r rest q bar h1 h2
    simp only [pollLoop, if_neg h1, if_neg h2]
    split_ifs <;> exact ⟨_, rfl⟩

/-! ## Claims on the upload -/

/-- C11, on the code: for a response with status 400 or more `CreateScan`
returns an `APIError` with the status and, as message, the text of the body
as it is, with an empty code, whatever the body holds; for the structured
body `structuredErrorBody` with status 401 the message is therefore not
`Invalid API key`.  `doRequest`, which `GetScan` goes through, returns the
parsed message and code for the same response. -/
theorem CreateScan_keeps_raw_error_body :
    (∀ (unmarshalScan : String → Except String CreateScanResponse) (status : Int)
        (body : String), status ≥ 400 →
      CreateScan unmarshalScan none ⟨none, .ok ⟨status, .ok body⟩⟩ =
        .error (.api ⟨status, body, ""⟩)) ∧
    (∀ unmarshalScan : String → Except String CreateScanResponse,
      CreateScan unmarshalScan none ⟨none, .ok ⟨401, .ok structuredErrorBody⟩⟩ =
        .error (.api ⟨401, structuredErrorBody, ""⟩)) ∧
    structuredErrorBody ≠ "Invalid API key" ∧
    (∀ (unmarshalErr : String → Except String (String × String))
        (unmarshalResult : String → Except String api.ScanResult),
      unmarshalErr structuredErrorBody = .ok ("Invalid API key", "unauthorized") →
      GetScan unmarshalErr unmarshalResult ⟨none, .ok ⟨401, .ok structuredErrorBody⟩⟩ =
        .error (.api ⟨401, "Invalid API key", "unauthorized"⟩)) := by
  refine ⟨?_, ?_, by decide, ?_⟩
  · intro unmarshalScan status body h
    simp [CreateScan, h]
  · intro unmarshalScan
    simp [CreateScan]
  · intro unmarshalErr unmarshalResult h
    simp [GetScan, doRequest, h]

/-! ## What the walk writes for an entry it reaches -/

theorem walkFn_skipDir (srcDir : String) (patterns : List String) (dest : Dest)
    (path : String) (x : Node) (err : Bool) (w : List Header)
    (h : walkFn srcDir patterns dest path x err = (w, .skipDir)) :
    x.IsDir = true ∧ ignoredAt srcDir patterns path x = true := by
  unfold walkFn at h
  unfold ignoredAt
  cases err with
  | true => simp at h
  | false =>
    simp only [Bool.false_eq_true, if_false] at h
    cases hrel : Rel srcDir path with
    | none => simp [hrel] at h
    | some relPath =>
      simp only [hrel] at h ⊢
      by_cases h1 : relPath = "."
      · simp [h1] at h
      · rw [if_neg h1] at h
        by_cases h2 : shouldIgnore relPath x.name patterns = true
        · rw [if_pos h2] at h
          by_cases h3 : x.IsDir = true
          · exact ⟨h3, by simp [h1, h2]⟩
          · simp [h3] at h
        · rw [if_neg h2] at h
          cases hh : FileInfoHeader x with
          | none => simp [hh] at h
          | some hd =>
            simp only [hh] at h
            cases hs : symlinkHeader srcDir path { hd with Name := relPath } x with
            | none => simp [hs] at h
            | some hd2 =>
              simp only [hs] at h
              cases x <;> simp only [writeEntry] at h <;> split_ifs at h <;> simp at h

theorem walk_skipDir (srcDir : String) (patterns : List String) (dest : Dest)
    (path : String) (x : Node) (w : List Header)
    (h : walk srcDir patterns dest path x = (w, .skipDir)) :
    x.IsDir = true ∧ x.lstatOk = true := by
  cases x with
  | dir name readOk cs => exact ⟨rfl, rfl⟩
  | file n o c =>
    simp only [walk] at h
    exact absurd (walkFn_skipDir _ _ _ _ _ _ _ h).1 (by simp [Node.IsDir])
  | symlink n l =>
    simp only [walk] at h
    exact absurd (walkFn_skipDir _ _ _ _ _ _ _ h).1 (by simp [Node.IsDir])
  | other n k =>
    simp only [walk] at h
    exact absurd (walkFn_skipDir _ _ _ _ _ _ _ h).1 (by simp [Node.IsDir])
  | broken n =>
    simp only [walk] at h
    exact absurd (walkFn_skipDir _ _ _ _ _ _ _ h).1 (by simp [Node.IsDir])

/-- In a walk of a listing that ends without an error, every entry of the
listing was walked without an error, and what its walk wrote is part of what
was written. -/
theorem walkList_reaches (srcDir : String) (patterns : List String) (dest : Dest)
    (path : String) (cs : List Node) :
    ∀ (i : Nat) (c : Node) (es : List Header) (r : WalkResult),
      walkList srcDir patterns dest path cs = (es, r) → (∀ e, r ≠ .fail e) →
      cs[i]? = some c →
      (walk srcDir patterns dest (Join path c.name) c).1 <:+: es ∧
        ∀ e, (walk srcDir patterns dest (Join path c.name) c).2 ≠ .fail e := by
  induction cs with
  | nil => intro i c es r _ _ hc; simp at hc
  | cons d ds ih =>
    intro i c es r hw hr hc
    simp only [walkList] at hw
    cases hd : walk srcDir patterns dest (Join path d.name) d with
    | mk w rd =>
      simp only [hd] at hw
      by_cases hstop : rd ≠ .ok ∧
          (if d.lstatOk = true then (!d.IsDir) = true ∨ rd ≠ .skipDir else rd ≠ .skipDir)
      · -- the loop stops at `d`: impossible without an error
        rw [if_pos hstop] at hw
        simp only [Prod.mk.injEq] at hw
        obtain ⟨hw1, hw2⟩ := hw
        subst hw1
        subst hw2
        cases rd with
        | ok => exact absurd rfl hstop.1
        | fail e => exact absurd rfl (hr e)
        | skipDir =>
          obtain ⟨h1, h2⟩ := walk_skipDir _ _ _ _ _ _ hd
          simp [h1, h2] at hstop
      · rw [if_neg hstop] at hw
        cases hrest : walkList srcDir patterns dest path ds with
        | mk more r2 =>
          simp only [hrest, Prod.mk.injEq] at hw
          obtain ⟨hw1, hw2⟩ := hw
          subst hw1
          subst hw2
          cases i with
          | zero =>
            simp only [List.getElem?_cons_zero, Option.some.injEq] at hc
            subst hc
            rw [hd]
            refine ⟨⟨[], more, by simp⟩, ?_⟩
            intro e he
            simp only at he
            subst he
            apply hstop
            refine ⟨by simp, ?_⟩
            split_ifs <;> simp
          | succ i =>
            simp only [List.getElem?_cons_succ] at hc
            obtain ⟨h1, h2⟩ := ih i c more _ hrest hr hc
            refine ⟨?_, h2⟩
            obtain ⟨a, b, hab⟩ := h1
            exact ⟨w ++ a, b, by simp [← hab]⟩

/-- In a walk that ends without an error, an entry reached along a way on
which nothing is ignored was walked without an error, and what its walk
wrote is part of what was written. -/
theorem walk_reaches (srcDir : String) (patterns : List String) (dest : Dest)
    (pos : List Nat) :
    ∀ (path : String) (root : Node) (p : String) (x : Node) (es : List Header)
      (r : WalkResult),
      walk srcDir patterns dest path root = (es, r) → (∀ e, r ≠ .fail e) →
      nodeAt path root pos = some (p, x) →
      keptAlong srcDir patterns path root pos = true →
      (walk srcDir patterns dest p x).1 <:+: es ∧
        (∀ e, (walk srcDir patterns dest p x).2 ≠ .fail e) ∧
        ignoredAt srcDir patterns p x = false := by
  induction pos with
  | nil =>
    intro path root p x es r hw hr hx hk
    simp only [nodeAt, Option.some.injEq, Prod.mk.injEq] at hx
    obtain ⟨hp, hxx⟩ := hx
    subst hp
    subst hxx
    rw [hw]
    exact ⟨List.infix_refl _, hr, by simpa [keptAlong] using hk⟩
  | cons i rest ih =>
    intro path root p x es r hw hr hx hk
    cases root with
    | dir name readOk cs =>
      simp only [nodeAt] at hx
      simp only [keptAlong, Bool.and_eq_true, Bool.not_eq_true'] at hk
      obtain ⟨hroot, hk⟩ := hk
      cases hc : cs[i]? with
      | none => simp [hc] at hx
      | some c =>
        simp only [hc] at hx hk
        simp only [walk] at hw
        cases hfn : walkFn srcDir patterns dest path (.dir name readOk cs) (!readOk) with
        | mk w r1 =>
          simp only [hfn] at hw
          have hread : readOk = true := by
            cases readOk with
            | true => rfl
            | false =>
              simp only [walkFn, Bool.not_false, if_true, Prod.mk.injEq] at hfn
              simp only [Bool.not_false, true_or, if_true, Prod.mk.injEq] at hw
              exact absurd (hw.2.symm.trans hfn.2.symm) (hr _)
          subst hread
          have hr1 : r1 = .ok := by
            cases r1 with
            | ok => rfl
            | skipDir =>
              have h2 := (walkFn_skipDir _ _ _ _ _ _ _ hfn).2
              rw [hroot] at h2
              exact absurd h2 (by decide)
            | fail e =>
              simp only [Bool.not_true, Bool.false_eq_true, false_or, ne_eq,
                not_false_eq_true, if_true, Prod.mk.injEq, reduceCtorEq] at hw
              exact absurd hw.2.symm (hr e)
          subst hr1
          cases hl : walkList srcDir patterns dest path cs with
          | mk more r2 =>
            simp only [hl, Bool.not_true, Bool.false_eq_true, ne_eq, not_true_eq_false,
              or_self, if_false, Prod.mk.injEq] at hw
            obtain ⟨hw1, hw2⟩ := hw
            subst hw1
            subst hw2
            obtain ⟨hc1, hc2⟩ := walkList_reaches srcDir patterns dest path cs i c more _ hl hr hc
            obtain ⟨h1, h2, h3⟩ := ih (Join path c.name) c p x
              (walk srcDir patterns dest (Join path c.name) c).1
              (walk srcDir patterns dest (Join path c.name) c).2 rfl hc2 hx hk
            refine ⟨?_, h2, h3⟩
            exact (h1.trans hc1).trans ⟨w, [], by simp⟩
    | file n o k => simp [nodeAt] at hx
    | symlink n l => simp [nodeAt] at hx
    | other n h => simp [nodeAt] at hx
    | broken n => simp [nodeAt] at hx

theorem walk_file_writes (srcDir : String) (patterns : List String) (dest : Dest)
    (p name : String) (openOk copyOk : Bool)
    (hnf : ∀ e, (walk srcDir patterns dest p (.file name openOk copyOk)).2 ≠ .fail e)
    (hig : ignoredAt srcDir patterns p (.file name openOk copyOk) = false)
    (hsub : Rel srcDir p ≠ some ".") :
    ∃ relPath : String, Rel srcDir p = some relPath ∧
      (walk srcDir patterns dest p (.file name openOk copyOk)).1 = [⟨relPath, .reg, ""⟩] := by
  simp only [walk, walkFn, Bool.false_eq_true, if_false] at hnf ⊢
  unfold ignoredAt at hig
  cases hrel : Rel srcDir p with
  | none =>
    simp only [hrel] at hnf
    exact absurd rfl (hnf .rel)
  | some relPath =>
    have h1 : relPath ≠ "." := fun h => hsub (by rw [hrel, h])
    have h2 : shouldIgnore relPath (Node.file name openOk copyOk).name patterns = false := by
      simpa [hrel, h1] using hig
    simp only [hrel, if_neg h1, h2, Bool.false_eq_true, if_false, FileInfoHeader,
      symlinkHeader, writeEntry] at hnf ⊢
    refine ⟨relPath, rfl, ?_⟩
    by_cases hw : dest.writeHeaderOk ⟨relPath, .reg, ""⟩ = true
    · simp only [hw, Bool.not_true, Bool.false_eq_true, if_false]
      split_ifs <;> rfl
    · simp only [hw, Bool.not_false, if_true] at hnf
      exact absurd rfl (hnf .writeHeader)

/-! ## Claim on archiving and then validating -/

/-- C14, as stated, fails.  The archive of a tree with the one file `main.go`
is written without error to whatever destination is named; at `/tmp/out.zip`
no content makes `ValidateArchive` return the kind tar.gz, and a file of
more than 500 MiB is refused as too large at any name.  In the tree whose one
file is `logs.tmp/a.txt` the file is matched by no default pattern, yet its
directory is, and for a source root that is a symbolic link the walk does not
go below the root: in both cases no entry is written, and an archive whose
first header read meets the end is refused as empty. -/
theorem CompressDirectory_then_ValidateArchive_fails :
    (CompressDirectory "/proj" (.dir "proj" true [.file "main.go" true true]) none acceptAll
        none = ([⟨"main.go", .reg, ""⟩], none) ∧
      (∀ file : ArchiveFile,
        (ValidateArchive asciiLower "/tmp/out.zip" file).1 ≠ .ok ArchiveTypeTarGz) ∧
      (∀ file : ArchiveFile, file.stat = some 524288001 →
        (ValidateArchive asciiLower "/tmp/out.tar.gz" file).1 =
          .error (.tooLarge 524288001))) ∧
    (shouldIgnore "logs.tmp/a.txt" "a.txt" defaultIgnorePatterns = false ∧
      CompressDirectory "/proj"
        (.dir "proj" true [.dir "logs.tmp" true [.file "a.txt" true true]]) none acceptAll
        none = ([], none) ∧
      CompressDirectory "/proj" (.symlink "proj" (some "/data/proj")) none acceptAll none =
        ([], none) ∧
      (ValidateArchive asciiLower "/tmp/out.tar.gz" ⟨some 45, none, true, true, .eof⟩).1 =
        .error (.invalidTarGz .empty)) := by
  refine ⟨⟨by decide, ?_, ?_⟩, by decide, by decide, by decide, by decide⟩
  · intro file h
    have hext : ToLower asciiLower (Ext "/tmp/out.zip") = ".zip" := by decide
    unfold ValidateArchive at h
    cases hs : file.stat with
    | none => simp [hs] at h
    | some sz =>
      simp only [hs] at h
      by_cases hb : sz > MaxArchiveSize
      · simp [hb] at h
      · rw [if_neg hb, if_pos hext] at h
        cases hz : validateZip file with
        | mk e ops =>
          cases e with
          | some e => simp [hz] at h
          | none =>
            simp only [hz] at h
            exact absurd (Except.ok.inj h) (by decide)
  · intro file hs
    unfold ValidateArchive
    rw [hs]
    simp only []
    rw [if_pos (by decide)]

/-- C14, amended: let `CompressDirectory` return no error for a source root
that is a directory holding a regular file reached along a way on which no
entry is ignored.  Then the archive has an entry.  If the file found at the
destination is the gzip stream that was written (it opens, the gzip reader
accepts it, and the first tar header read is the first one written), has at
most 524288000 bytes and a lower-cased name with the extension `.gz` or the
ending `.tar.gz` or `.tgz`, then `ValidateArchive` gives the kind tar.gz
after one header read, and so no empty-archive error. -/
theorem CompressDirectory_then_ValidateArchive (lower : Char → Char) (srcDir : String)
    (root : Node) (ignoreFile : Option ScannedFile) (dest : Dest)
    (opts : Option CompressOptions) (entries : List Header) (pos : List Nat)
    (p name : String) (openOk copyOk : Bool) (destFile : String) (file : ArchiveFile)
    (size : Int)
    (hrun : CompressDirectory srcDir root ignoreFile dest opts = (entries, none))
    (hx : nodeAt srcDir root pos = some (p, .file name openOk copyOk))
    (hkept : keptAlong srcDir (effectivePatterns ignoreFile (optsOrDefault opts)) srcDir root
      pos = true)
    (hsub : Rel srcDir p ≠ some ".")
    (hext : ToLower lower (Ext destFile) = ".gz" ∨
      HasSuffix (ToLower lower (Base destFile)) ".tar.gz" = true ∨
      HasSuffix (ToLower lower (Base destFile)) ".tgz" = true)
    (hstat : file.stat = some size) (hsize : size ≤ 524288000)
    (hopen : file.openOk = true) (hgzip : file.gzipOk = true)
    (hfirst : ∀ (h : Header) (t : List Header), entries = h :: t →
      file.firstHeader = .header h) :
    entries ≠ [] ∧
    root.IsDir = true ∧
    ValidateArchive lower destFile file =
      (.ok ArchiveTypeTarGz, [.stat, .open, .gzipNewReader, .tarNext]) := by
  -- the walk ended without an error
  rw [CompressDirectory_eq] at hrun
  have hwalk : ∃ r, walk srcDir (effectivePatterns ignoreFile (optsOrDefault opts)) dest srcDir
      root = (entries, r) ∧ ∀ e, r ≠ .fail e := by
    by_cases hc : (!dest.createOk) = true
    · rw [if_pos hc] at hrun
      simp at hrun
    · rw [if_neg hc] at hrun
      unfold Walk at hrun
      cases hw : walk srcDir (effectivePatterns ignoreFile (optsOrDefault opts)) dest srcDir
          root with
      | mk w r =>
        rw [hw] at hrun
        cases r with
        | ok =>
          simp only [Prod.mk.injEq, and_true] at hrun
          exact ⟨.ok, by rw [hrun], by simp⟩
        | skipDir =>
          simp only [Prod.mk.injEq, and_true] at hrun
          exact ⟨.skipDir, by rw [hrun], by simp⟩
        | fail e => simp at hrun
  obtain ⟨r, hw, hr⟩ := hwalk
  obtain ⟨hin, hnf, hig⟩ := walk_reaches srcDir _ dest pos srcDir root p _ entries r hw hr hx hkept
  obtain ⟨relPath, hrel, hone⟩ :=
    walk_file_writes srcDir _ dest p name openOk copyOk hnf hig hsub
  rw [hone] at hin
  have hne : entries ≠ [] := by
    intro h0
    rw [h0] at hin
    obtain ⟨a, b, hab⟩ := hin
    simp at hab
  -- the file reached is not the root, so the root is a directory
  have hdir : root.IsDir = true := by
    cases pos with
    | nil =>
      simp only [nodeAt, Option.some.injEq, Prod.mk.injEq] at hx
      exfalso
      apply hsub
      rw [← hx.1]
      simp [Rel]
    | cons i rest =>
      cases root with
      | dir n ro cs => rfl
      | file n o k => simp [nodeAt] at hx
      | symlink n l => simp [nodeAt] at hx
      | other n h => simp [nodeAt] at hx
      | broken n => simp [nodeAt] at hx
  refine ⟨hne, hdir, ?_⟩
  have hnz : ToLower lower (Ext destFile) ≠ ".zip" := by
    intro hz
    obtain ⟨h1, h2⟩ := zip_ext_not_targz_name lower destFile hz
    rcases hext with h | h | h
    · rw [hz] at h
      exact absurd h (by decide)
    · rw [h1] at h
      exact absurd h (by decide)
    · rw [h2] at h
      exact absurd h (by decide)
  obtain ⟨h, t, hht⟩ := List.exists_cons_of_ne_nil hne
  have hhead := hfirst h t hht
  have hmax : MaxArchiveSize = 524288000 := by decide
  unfold ValidateArchive
  rw [hstat]
  simp only []
  rw [if_neg (by rw [hmax]; omega), if_neg hnz, if_pos hext]
  simp [validateTarGz, hopen, hgzip, hhead]

theorem CompressDirectory_then_ValidateArchive_witness :
    ([⟨"src", .dir, ""⟩, ⟨"src/main.go", .reg, ""⟩] : List Header) ≠ [] ∧
    (Node.dir "proj" true [.dir "src" true [.file "main.go" true true]]).IsDir = true ∧
    ValidateArchive asciiLower "/tmp/canopy-123.tar.gz"
        ⟨some 2048, none, true, true, .header ⟨"src", .dir, ""⟩⟩ =
      (.ok ArchiveTypeTarGz, [.stat, .open, .gzipNewReader, .tarNext]) :=
  CompressDirectory_then_ValidateArchive asciiLower "/proj"
    (.dir "proj" true [.dir "src" true [.file "main.go" true true]]) none acceptAll none
    [⟨"src", .dir, ""⟩, ⟨"src/main.go", .reg, ""⟩] [0, 0] "/proj/src/main.go" "main.go"
    true true "/tmp/canopy-123.tar.gz" ⟨some 2048, none, true, true, .header ⟨"src", .dir, ""⟩⟩
    2048 (by decide) (by rfl) (by decide) (by decide) (by decide) rfl (by decide) rfl rfl
    (by intro h t he; cases he; rfl)

/-! ## Claims on the pattern list -/

theorem ignoreLines_eq_filter (lines : List String) :
    ignoreLines lines =
      (lines.map TrimSpace).filter (fun l => decide (l ≠ "") && !HasPrefix l "#") := by
  induction lines with
  | nil => rfl
  | cons t ts ih =>
    simp only [ignoreLines, List.map_cons, List.filter_cons]
    by_cases h : TrimSpace t ≠ "" ∧ (!HasPrefix (TrimSpace t) "#") = true
    · rw [if_pos h, ih]
      have h2 : (decide (TrimSpace t ≠ "") && !HasPrefix (TrimSpace t) "#") = true := by
        simpa using h
      rw [if_pos h2]
    · rw [if_neg h, ih]
      have h2 : ¬ (decide (TrimSpace t ≠ "") && !HasPrefix (TrimSpace t) "#") = true := by
        simpa using h
      rw [if_neg h2]

theorem shouldIgnore_append_left (path name : String) (ps qs : List String)
    (h : shouldIgnore path name ps = true) : shouldIgnore path name (ps ++ qs) = true := by
  rw [shouldIgnore_iff_exists] at h ⊢
  obtain ⟨p, hp, hm⟩ := h
  exact ⟨p, List.mem_append_left _ hp, hm⟩

/-- The first element left by `dropWhile` fails the test. -/
theorem head_dropWhile_fails (q : Char → Bool) (l : List Char) :
    ∀ c, (l.dropWhile q).head? = some c → q c = false := by
  induction l with
  | nil => intro c h; simp at h
  | cons a as ih =>
    intro c h
    by_cases ha : q a = true
    · rw [List.dropWhile_cons_of_pos ha] at h
      exact ih c h
    · rw [List.dropWhile_cons_of_neg ha] at h
      simp only [List.head?_cons, Option.some.injEq] at h
      rw [← h]
      simpa using ha

/-- What `TrimSpace` returns: the text without a leading run and a trailing
run of white space, both as long as they can be. -/
theorem TrimSpace_spec (s : String) :
    ∃ pre post : List Char,
      s.data = pre ++ (TrimSpace s).data ++ post ∧
      (∀ c ∈ pre, isSpace c = true) ∧ (∀ c ∈ post, isSpace c = true) ∧
      (∀ c, (TrimSpace s).data.head? = some c → isSpace c = false) ∧
      (∀ c, (TrimSpace s).data.getLast? = some c → isSpace c = false) := by
  have hmid : (s.data.dropWhile isSpace) =
      (TrimSpace s).data ++ ((s.data.dropWhile isSpace).reverse.takeWhile isSpace).reverse := by
    have h := List.takeWhile_append_dropWhile isSpace (s.data.dropWhile isSpace).reverse
    have h2 := congrArg List.reverse h
    rw [List.reverse_append, List.reverse_reverse] at h2
    rw [TrimSpace]
    exact h2.symm
  refine ⟨s.data.takeWhile isSpace,
    ((s.data.dropWhile isSpace).reverse.takeWhile isSpace).reverse, ?_, ?_, ?_, ?_, ?_⟩
  · rw [List.append_assoc, ← hmid, List.takeWhile_append_dropWhile]
  · intro c hc
    exact (List.mem_takeWhile_imp hc)
  · intro c hc
    rw [List.mem_reverse] at hc
    exact (List.mem_takeWhile_imp hc)
  · intro c hc
    have hpre : (TrimSpace s).data.head? = (s.data.dropWhile isSpace).head? := by
      cases ht : (TrimSpace s).data with
      | nil => rw [ht] at hc; simp at hc
      | cons a as =>
        rw [hmid, ht]
        rfl
    rw [hpre] at hc
    exact head_dropWhile_fails isSpace s.data c hc
  · intro c hc
    have hlast : (TrimSpace s).data.getLast? =
        ((s.data.dropWhile isSpace).reverse.dropWhile isSpace).head? := by
      rw [TrimSpace]
      simp [List.getLast?_reverse]
    rw [hlast] at hc
    exact head_dropWhile_fails isSpace _ c hc

/-- C21: the pattern list `CompressDirectory` matches against is the
configured patterns (the default ones for nil options) followed, when
`.canopyignore` is read without an error, by its lines, each trimmed, the
blank ones and those beginning with `#` dropped, in file order; a file that
cannot be opened or whose scan ends in an error adds nothing.  Trimming
takes away the longest leading and trailing runs of white space and nothing
else.  In every case an entry that the configured patterns ignore is
ignored. -/
theorem CompressDirectory_patterns (srcDir : String) (root : Node)
    (ignoreFile : Option ScannedFile) (dest : Dest) (opts : Option CompressOptions) :
    CompressDirectory srcDir root ignoreFile dest opts =
      (if !dest.createOk then ([], some .createArchive)
       else Walk srcDir (effectivePatterns ignoreFile (optsOrDefault opts)) dest root) ∧
    optsOrDefault none = DefaultCompressOptions ∧
    DefaultCompressOptions.IgnorePatterns = defaultIgnorePatterns ∧
    (∀ f : ScannedFile, ignoreFile = some f → f.scanErr = false →
      effectivePatterns ignoreFile (optsOrDefault opts) =
        (optsOrDefault opts).IgnorePatterns ++
          (f.lines.map TrimSpace).filter (fun l => decide (l ≠ "") && !HasPrefix l "#")) ∧
    (ignoreFile = none →
      effectivePatterns ignoreFile (optsOrDefault opts) = (optsOrDefault opts).IgnorePatterns) ∧
    (∀ f : ScannedFile, ignoreFile = some f → f.scanErr = true →
      effectivePatterns ignoreFile (optsOrDefault opts) = (optsOrDefault opts).IgnorePatterns) ∧
    (∀ relativePath baseName : String,
      shouldIgnore relativePath baseName (optsOrDefault opts).IgnorePatterns = true →
      shouldIgnore relativePath baseName
        (effectivePatterns ignoreFile (optsOrDefault opts)) = true) ∧
    (∀ line : String, ∃ pre post : List Char,
      line.data = pre ++ (TrimSpace line).data ++ post ∧
      (∀ c ∈ pre, isSpace c = true) ∧ (∀ c ∈ post, isSpace c = true) ∧
      (∀ c, (TrimSpace line).data.head? = some c → isSpace c = false) ∧
      (∀ c, (TrimSpace line).data.getLast? = some c → isSpace c = false)) ∧
    (isSpace ' ' = true ∧ isSpace '\t' = true ∧ isSpace '\r' = true ∧ isSpace '\n' = true ∧
      isSpace 'a' = false ∧ isSpace '#' = false ∧ isSpace '*' = false) ∧
    TrimSpace "  *.bak \t" = "*.bak" ∧ TrimSpace "my file.txt\r" = "my file.txt" ∧
    TrimSpace " \t " = "" ∧
    effectivePatterns
        (some ⟨["  *.bak \t", "# build output", "", "\tsecret ", "   ", " #x", "docs # kept"],
          false⟩) ⟨["node_modules"], 0, false⟩ =
      ["node_modules", "*.bak", "secret", "docs # kept"] ∧
    effectivePatterns (some ⟨["  *.bak \t", "secret"], true⟩) ⟨["node_modules"], 0, false⟩ =
      ["node_modules"] := by
  refine ⟨CompressDirectory_eq _ _ _ _ _, rfl, rfl, ?_, ?_, ?_, ?_, TrimSpace_spec,
    by decide, by decide, by decide, by decide, by decide, by decide⟩
  · intro f hf herr
    subst hf
    simp [effectivePatterns, loadIgnoreFile, herr, ignoreLines_eq_filter]
  · intro hf
    subst hf
    simp [effectivePatterns, loadIgnoreFile]
  · intro f hf herr
    subst hf
    simp [effectivePatterns, loadIgnoreFile, herr]
  · intro relativePath baseName h
    cases ignoreFile with
    | none => simpa [effectivePatterns, loadIgnoreFile] using h
    | some f =>
      cases herr : f.scanErr with
      | true => simpa [effectivePatterns, loadIgnoreFile, herr] using h
      | false =>
        simp only [effectivePatterns, loadIgnoreFile, herr, List.nil_append]
        exact shouldIgnore_append_left _ _ _ _ h

/-! ## Claims on the threshold text -/

theorem ToLower_length (lower : Char → Char) (s : String) :
    (ToLower lower s).data.length = s.data.length := by
  simp [ToLower]

theorem ParseThreshold_blocker (lower : Char → Char) :
    ParseThreshold lower "blocker" = ThresholdBlocker := by
  have hlen : (ToLower lower "blocker").data.length = 7 := by
    rw [ToLower_length]
    rfl
  have h1 : ToLower lower "blocker" ≠ "high" := by
    intro h
    rw [h] at hlen
    exact absurd hlen (by decide)
  have h2 : ToLower lower "blocker" ≠ "medium" := by
    intro h
    rw [h] at hlen
    exact absurd hlen (by decide)
  have h3 : ToLower lower "blocker" ≠ "low" := by
    intro h
    rw [h] at hlen
    exact absurd hlen (by decide)
  unfold ParseThreshold
  simp only [h1, h2, h3, if_false]
  split_ifs <;> rfl

/-- C22: for every threshold string `s`, `ParseThreshold(s)` is one of the
four constants: the one whose name is the lower-cased `s`, and
`ThresholdBlocker` when the lower-cased `s` is none of the four names; for
such a string `outputResults` ends as it does for `blocker`. -/
theorem ParseThreshold_cases (lower : Char → Char) (s : String) :
    (ParseThreshold lower s = ThresholdBlocker ∨ ParseThreshold lower s = ThresholdHigh ∨
      ParseThreshold lower s = ThresholdMedium ∨ ParseThreshold lower s = ThresholdLow) ∧
    (ToLower lower s = "blocker" → ParseThreshold lower s = ThresholdBlocker) ∧
    (ToLower lower s = "high" → ParseThreshold lower s = ThresholdHigh) ∧
    (ToLower lower s = "medium" → ParseThreshold lower s = ThresholdMedium) ∧
    (ToLower lower s = "low" → ParseThreshold lower s = ThresholdLow) ∧
    (ToLower lower s ≠ "blocker" → ToLower lower s ≠ "high" → ToLower lower s ≠ "medium" →
      ToLower lower s ≠ "low" →
      ParseThreshold lower s = ThresholdBlocker ∧
      ∀ (env : OutputEnv) (scanOutput : String) (result : api.ScanResult),
        outputResults lower env scanOutput s result =
          outputResults lower env scanOutput "blocker" result) ∧
    ParseThreshold asciiLower "HiGh" = ThresholdHigh ∧
    ParseThreshold asciiLower "Medium" = ThresholdMedium ∧
    ParseThreshold asciiLower "critical" = ThresholdBlocker ∧
    ParseThreshold asciiLower " low" = ThresholdBlocker := by
  refine ⟨?_, ?_, ?_, ?_, ?_, ?_, by decide, by decide, by decide, by decide⟩
  · unfold ParseThreshold
    simp only []
    split_ifs <;> simp
  · intro h
    simp [ParseThreshold, h]
  · intro h
    simp [ParseThreshold, h, ThresholdHigh]
  · intro h
    simp [ParseThreshold, h, ThresholdMedium]
  · intro h
    simp [ParseThreshold, h, ThresholdLow]
  · intro h1 h2 h3 h4
    have hp : ParseThreshold lower s = ThresholdBlocker := by
      simp [ParseThreshold, h1, h2, h3, h4]
    refine ⟨hp, ?_⟩
    intro env scanOutput result
    unfold outputResults
    rw [hp, ParseThreshold_blocker]

/-! ## Claim on the errors of the upload -/

/-- A run of `runScan` that gets as far as the upload ends as the result of
`CreateScan` dictates. -/
theorem runScan_upload (lower : Char → Char)
    (unmarshalScan : String → Except String CreateScanResponse)
    (scanNoProgress scanFailOnErr : Bool) (env : RunEnv) (absPath : String)
    (target : ScanTarget) (habs : env.absPath = some absPath)
    (hkey : (if env.configKey = "" then env.cmdKey else env.configKey) ≠ "")
    (htarget : env.target = some target)
    (harchive : prepareArchive lower absPath env target = none) :
    runScan lower unmarshalScan scanNoProgress scanFailOnErr env =
      match CreateScan unmarshalScan env.openErr env.exchange with
      | .error (.api apiErr) =>
        if apiErr.StatusCode = 401 ∨ apiErr.StatusCode = 403 then
          .error (.authFailed apiErr.Message)
        else .error (.createScan (.api apiErr))
      | .error e => .error (.createScan e)
      | .ok _ => .ok (pollLoop scanFailOnErr env.events 0 (newBar scanNoProgress env.quiet)) := by
  unfold runScan
  simp only [habs, hkey, if_false, htarget, harchive]

/-- C23: in a run of `runScan` that gets as far as the upload, a failure of
`CreateScan` with an `APIError` of status 401 or 403 makes `runScan` return
"authentication failed" with the message of that error, not the "create
scan" error; an `APIError` with any other status and an error that is not an
`APIError` make it return the "create scan" error wrapping them. -/
theorem runScan_upload_errors (lower : Char → Char)
    (unmarshalScan : String → Except String CreateScanResponse)
    (scanNoProgress scanFailOnErr : Bool) (env : RunEnv) (absPath : String)
    (target : ScanTarget) (habs : env.absPath = some absPath)
    (hkey : (if env.configKey = "" then env.cmdKey else env.configKey) ≠ "")
    (htarget : env.target = some target)
    (harchive : prepareArchive lower absPath env target = none) :
    (∀ apiErr : APIError,
      CreateScan unmarshalScan env.openErr env.exchange = .error (.api apiErr) →
      apiErr.StatusCode = 401 ∨ apiErr.StatusCode = 403 →
      runScan lower unmarshalScan scanNoProgress scanFailOnErr env =
        .error (.authFailed apiErr.Message)) ∧
    (∀ apiErr : APIError,
      CreateScan unmarshalScan env.openErr env.exchange = .error (.api apiErr) →
      apiErr.StatusCode ≠ 401 → apiErr.StatusCode ≠ 403 →
      runScan lower unmarshalScan scanNoProgress scanFailOnErr env =
        .error (.createScan (.api apiErr))) ∧
    (∀ context cause : String,
      CreateScan unmarshalScan env.openErr env.exchange = .error (.wrapped context cause) →
      runScan lower unmarshalScan scanNoProgress scanFailOnErr env =
        .error (.createScan (.wrapped context cause))) := by
  have hrun := runScan_upload lower unmarshalScan scanNoProgress scanFailOnErr env absPath
    target habs hkey htarget harchive
  refine ⟨?_, ?_, ?_⟩
  · intro apiErr hc hs
    rw [hrun, hc]
    simp only []
    rw [if_pos hs]
  · intro apiErr hc h1 h2
    rw [hrun, hc]
    simp only []
    rw [if_neg (by simp [h1, h2])]
  · intro context cause hc
    rw [hrun, hc]

theorem runScan_upload_errors_witness :
    runScan asciiLower (fun _ => .error "no body")
        true true
        { absPath := some "/home/u/app.zip", configKey := "", cmdKey := "key-1",
          target := some (.file ⟨some 100, some 3, true, false, .err⟩), tempFile := none,
          openErr := none, exchange := ⟨none, .ok ⟨403, .ok "forbidden"⟩⟩, events := [],
          quiet := true } =
      .error (.authFailed "forbidden") ∧
    runScan asciiLower (fun _ => .error "no body")
        true true
        { absPath := some "/home/u/app.zip", configKey := "", cmdKey := "key-1",
          target := some (.file ⟨some 100, some 3, true, false, .err⟩), tempFile := none,
          openErr := none, exchange := ⟨none, .ok ⟨500, .ok "oops"⟩⟩, events := [],
          quiet := true } =
      .error (.createScan (.api ⟨500, "oops", ""⟩)) ∧
    runScan asciiLower (fun _ => .error "no body")
        true true
        { absPath := some "/home/u/app.zip", configKey := "", cmdKey := "key-1",
          target := some (.file ⟨some 100, some 3, true, false, .err⟩), tempFile := none,
          openErr := none, exchange := ⟨none, .error "connection refused"⟩, events := [],
          quiet := true } =
      .error (.createScan (.wrapped "send request" "connection refused")) :=
  ⟨(runScan_upload_errors asciiLower (fun _ => .error "no body") true true
      { absPath := some "/home/u/app.zip", configKey := "", cmdKey := "key-1",
        target := some (.file ⟨some 100, some 3, true, false, .err⟩), tempFile := none,
        openErr := none, exchange := ⟨none, .ok ⟨403, .ok "forbidden"⟩⟩, events := [],
        quiet := true }
      "/home/u/app.zip" (.file ⟨some 100, some 3, true, false, .err⟩) rfl (by decide) rfl
      (by decide)).1 ⟨403, "forbidden", ""⟩ (by decide) (by decide),
   by decide, by decide⟩

/-! ## Claim on the two tests of the file name -/

/-- C24: for every path whose `os.Stat` succeeds with a size within the
limit, `IsArchive` is false exactly when `ValidateArchive` fails with the
unsupported-type error.  In `runScan`, where `IsArchive` is asked first,
`ValidateArchive` therefore never returns that error. -/
theorem IsArchive_iff_not_unsupported (lower : Char → Char) (path : String)
    (file : ArchiveFile) (size : Int) (hstat : file.stat = some size)
    (hsize : size ≤ MaxArchiveSize) :
    (IsArchive lower path = false ↔
      (ValidateArchive lower path file).1 =
        .error (.unsupported (ToLower lower (Ext path)))) ∧
    (IsArchive lower path = false ↔
      ∃ ext : String, (ValidateArchive lower path file).1 = .error (.unsupported ext)) ∧
    (∀ (env : RunEnv) (other : ArchiveFile) (ext : String),
      prepareArchive lower path env (.file other) ≠ some (.validate (.unsupported ext))) := by
  have hbig : ¬ size > MaxArchiveSize := by omega
  have hval : ∀ (f : ArchiveFile) (ext : String), IsArchive lower path = true →
      (ValidateArchive lower path f).1 ≠ .error (.unsupported ext) := by
    intro f ext his h
    unfold IsArchive at his
    simp only [decide_eq_true_eq] at his
    unfold ValidateArchive at h
    cases hs : f.stat with
    | none => simp [hs] at h
    | some sz =>
      simp only [hs] at h
      by_cases hb : sz > MaxArchiveSize
      · simp [hb] at h
      · rw [if_neg hb] at h
        by_cases hz : ToLower lower (Ext path) = ".zip"
        · rw [if_pos hz] at h
          cases hv : validateZip f with
          | mk e ops => cases e <;> simp [hv] at h
        · rw [if_neg hz] at h
          have hcond : ToLower lower (Ext path) = ".gz" ∨
              HasSuffix (ToLower lower (Base path)) ".tar.gz" = true ∨
              HasSuffix (ToLower lower (Base path)) ".tgz" = true := by
            rcases his with h1 | h1
            · exact absurd h1 hz
            · exact h1
          rw [if_pos hcond] at h
          cases hv : validateTarGz f with
          | mk e ops => cases e <;> simp [hv] at h
  have hmain : IsArchive lower path = false →
      (ValidateArchive lower path file).1 =
        .error (.unsupported (ToLower lower (Ext path))) := by
    intro his
    unfold IsArchive at his
    simp only [decide_eq_false_iff_not, not_or] at his
    obtain ⟨h1, h2, h3, h4⟩ := his
    unfold ValidateArchive
    rw [hstat]
    simp only []
    rw [if_neg hbig, if_neg h1, if_neg (by simp [h2, h3, h4])]
  refine ⟨⟨hmain, ?_⟩, ⟨fun h => ⟨_, hmain h⟩, ?_⟩, ?_⟩
  · intro h
    cases his : IsArchive lower path with
    | false => rfl
    | true => exact absurd h (hval file _ his)
  · rintro ⟨ext, h⟩
    cases his : IsArchive lower path with
    | false => rfl
    | true => exact absurd h (hval file _ his)
  · intro env other ext h
    simp only [prepareArchive] at h
    cases his : IsArchive lower path with
    | false => simp [his] at h
    | true =>
      simp only [his, Bool.not_true, Bool.false_eq_true, if_false] at h
      cases hv : (ValidateArchive lower path other).1 with
      | ok k => simp [hv] at h
      | error e =>
        simp only [hv, Option.some.injEq, RunError.validate.injEq] at h
        subst h
        exact hval other ext his hv

theorem IsArchive_iff_not_unsupported_witness :
    (IsArchive asciiLower "/home/u/notes.TXT" = false ↔
      (ValidateArchive asciiLower "/home/u/notes.TXT" ⟨some 12, none, true, false, .err⟩).1 =
        .error (.unsupported (ToLower asciiLower (Ext "/home/u/notes.TXT")))) ∧
    IsArchive asciiLower "/home/u/notes.TXT" = false ∧
    IsArchive asciiLower "/home/u/App.TGZ" = true :=
  ⟨(IsArchive_iff_not_unsupported asciiLower "/home/u/notes.TXT"
      ⟨some 12, none, true, false, .err⟩ 12 rfl (by decide)).1, by decide, by decide⟩

/-! ## Claim on a result without summary -/

theorem DetermineExitCode_zero (t : Threshold) : DetermineExitCode ⟨0, 0, 0, 0⟩ t = Success := by
  unfold DetermineExitCode
  split_ifs <;> first | rfl | simp_all

/-- C25: for every result whose summary is nil, `outputResults` decides on
the all-zero summary, so the exit code is Success for every threshold
string: `outputResults` never calls `os.Exit`, and returns nil when the
result was formatted and written.  This holds whatever the status, so also
for the FAILED result that the poll loop hands over when fail-on-error is
off. -/
theorem outputResults_without_summary (lower : Char → Char) (env : OutputEnv)
    (scanOutput scanThreshold : String) (result : api.ScanResult)
    (hs : result.Summary = none) :
    exitSummary result.Summary = ⟨0, 0, 0, 0⟩ ∧
    DetermineExitCode (exitSummary result.Summary) (ParseThreshold lower scanThreshold) =
      Success ∧
    (∀ code : Int,
      outputResults lower env scanOutput scanThreshold result ≠ .exit code) ∧
    (∀ text : String, env.formatted = .ok text → (scanOutput = "" ∨ env.writeOk = true) →
      outputResults lower env scanOutput scanThreshold result = .returned) ∧
    (∀ (rest : List Event) (q : Nat) (bar : Option ProgressBar), result.Status = "FAILED" →
      (pollLoop false (Event.tick (.ok result) :: rest) q bar).outcome = .output result) := by
  have h0 : exitSummary result.Summary = ⟨0, 0, 0, 0⟩ := by rw [hs]; rfl
  have hcode : DetermineExitCode (exitSummary result.Summary)
      (ParseThreshold lower scanThreshold) = Success := by
    rw [h0]
    exact DetermineExitCode_zero _
  refine ⟨h0, hcode, ?_, ?_, ?_⟩
  · intro code h
    unfold outputResults at h
    cases hf : env.formatted with
    | error e => simp [hf] at h
    | ok text =>
      simp only [hf, hcode] at h
      split_ifs at h with h1 h2
      exact h2 rfl
  · intro text hf hw
    unfold outputResults
    simp only [hf, hcode]
    have hnw : ¬ (scanOutput ≠ "" ∧ (!env.writeOk) = true) := by
      rintro ⟨h1, h2⟩
      rcases hw with hw | hw
      · exact h1 hw
      · rw [hw] at h2
        exact absurd h2 (by decide)
    rw [if_neg hnw]
    simp
  · intro rest q bar hst
    have hne : ¬ result.Status = "COMPLETED" := by rw [hst]; decide
    simp [pollLoop, hne, hst]

theorem outputResults_without_summary_witness :
    outputResults asciiLower ⟨.ok "report", true⟩ "" "low" (resultWith "FAILED" none) =
      .returned ∧
    DetermineExitCode (exitSummary (resultWith "FAILED" none).Summary)
      (ParseThreshold asciiLower "low") = Success :=
  have h := outputResults_without_summary asciiLower ⟨.ok "report", true⟩ "" "low"
    (resultWith "FAILED" none) rfl
  ⟨h.2.2.2.1 "report" rfl (Or.inl rfl), h.2.1⟩

/-! ## Claim on the reach of the default patterns -/

theorem shouldIgnore_of_mem_contains (path name p : String) (ps : List String) (hp : p ∈ ps)
    (hstar : HasPrefix p "*" = false) (hsub : Contains path p = true) :
    shouldIgnore path name ps = true := by
  rw [shouldIgnore_iff_exists]
  refine ⟨p, hp, ?_⟩
  rw [shouldIgnore_single]
  simp [hstar, hsub]

theorem shouldIgnore_of_mem_star (path name : String) (ps : List String) (hp : "*" ∈ ps) :
    shouldIgnore path name ps = true := by
  rw [shouldIgnore_iff_exists]
  refine ⟨"*", hp, ?_⟩
  rw [shouldIgnore_single]
  have h1 : HasPrefix "*" "*" = true := by decide
  have h2 : TrimPrefix "*" "*" = "" := by decide
  rw [if_pos h1, h2, HasSuffix_iff]
  exact ⟨name, by simp⟩

/-- C26: with the default patterns, `shouldIgnore` is true for every entry
whose relative path contains, anywhere, a default pattern that does not
begin with `*`, whether or not a path segment equals the pattern:
`src/rebuild.go` and `distance.txt` are excluded through `build` and `dist`.
A pattern list that holds the pattern `*` excludes every entry. -/
theorem shouldIgnore_default_substring (relativePath baseName : String) :
    (∀ p ∈ defaultIgnorePatterns, HasPrefix p "*" = false →
      (∃ a b : String, relativePath = a ++ p ++ b) →
      shouldIgnore relativePath baseName defaultIgnorePatterns = true) ∧
    "build" ∈ defaultIgnorePatterns ∧ "dist" ∈ defaultIgnorePatterns ∧
    shouldIgnore "src/rebuild.go" "rebuild.go" defaultIgnorePatterns = true ∧
    shouldIgnore "distance.txt" "distance.txt" defaultIgnorePatterns = true ∧
    shouldIgnore "src/rebuild.go" "rebuild.go" ["build"] = true ∧
    shouldIgnore "distance.txt" "distance.txt" ["dist"] = true ∧
    (∀ patterns : List String, "*" ∈ patterns →
      shouldIgnore relativePath baseName patterns = true) := by
  refine ⟨?_, by decide, by decide, by decide, by decide, by decide, by decide, ?_⟩
  · intro p hp hstar hsub
    exact shouldIgnore_of_mem_contains _ _ p _ hp hstar ((Contains_iff _ _).2 hsub)
  · intro patterns hp
    exact shouldIgnore_of_mem_star _ _ _ hp

end CanopyCli
